import Mathlib

/-!
Verification of the Wolf-Lang front end (lexer and recursive-descent parser).

The repository snapshot contains two coexisting designs:
* `src/tokens.rs` and `src/lexer.rs` implement a minimal token set
  (`Number`/`TypeNumber`, no control-flow keywords); they are embedded in
  namespace `Wolf.Lex`.
* `src/parser.rs` is written against a richer token set (`Integer`, `Float`,
  `TypeList`, control-flow keywords) whose `Token` declaration, the
  `error_handler::ParseError` type and some AST variants are not present in
  the snapshot; the parser is embedded in namespace `Wolf.Parse`, with the
  missing declarations modelled from the specification and from their uses
  in `src/parser.rs`.

Machine integers: the Rust code performs no arithmetic on its `i64`/index
values beyond incrementing a cursor, so they are modelled as `Int`/`Nat`.
Rust `f64` payloads are modelled as Lean `Float`; no claim depends on
floating-point arithmetic.
-/

namespace Wolf

namespace Lex

/-- The token type of `src/tokens.rs` (the minimal set actually produced by
`src/lexer.rs`).  Payloads: `Identifier(String)`, `Number(f64)`,
`String(String)`, `Boolean(bool)`. -/
inductive Token where
  | TypeString
  | TypeNumber
  | TypeBool
  | Let
  | Print
  | Identifier (s : String)
  | Number (v : Float)
  | String (s : String)
  | Boolean (b : Bool)
  | Assign
  | Plus
  | Minus
  | Multiply
  | Divide
  | LParen
  | RParen
  | LBrace
  | RBrace
  | Semicolon
  | EOF

/-- Start of an identifier/keyword run: `c.is_alphabetic() || c == '_'` in
`src/lexer.rs` line 18 (Lean's `Char.isAlpha` models Rust's alphabetic
class; all claims use ASCII inputs where the two agree). -/
def identStart (c : Char) : Bool := c.isAlpha || c == '_'

/-- Continuation of an identifier/keyword run:
`chars[i].is_alphanumeric() || chars[i] == '_'` (line 21). -/
def identCont (c : Char) : Bool := c.isAlphanum || c == '_'

/-- Continuation of a numeric run: `chars[i].is_ascii_digit() || chars[i] == '.'`
(line 45). -/
def numCont (c : Char) : Bool := c.isDigit || c == '.'

/-- The keyword table of `src/lexer.rs` lines 27-36: the `match slice.as_str()`
that turns a completed identifier/keyword run into its token. -/
def keywordLookup (s : String) : Token :=
  match s with
  | "let" => .Let
  | "int" => .TypeNumber
  | "bool" => .TypeBool
  | "string" => .TypeString
  | "print" => .Print
  | "true" => .Boolean true
  | "false" => .Boolean false
  | _ => .Identifier s

/-- The single-character operator table of `src/lexer.rs` lines 72-83
(`match c` arms that push a token and advance); `none` corresponds to the
fall-through `_ => {}` arm that leads to the "Unexpected token" error. -/
def charOp (c : Char) : Option Token :=
  match c with
  | '=' => some .Assign
  | '+' => some .Plus
  | '-' => some .Minus
  | '*' => some .Multiply
  | '/' => some .Divide
  | '(' => some .LParen
  | ')' => some .RParen
  | '{' => some .LBrace
  | '}' => some .RBrace
  | ';' => some .Semicolon
  | _ => none

/-- Modelled from the spec: `src/lexer.rs` line 49 calls the Rust standard
library's `str::parse::<f64>()`, which is outside this repository.  On the
runs the lexer produces (a digit followed by digits and dots) it succeeds
exactly when the run contains at most one decimal point, yielding its
decimal value ("a numeric run ... is parsed as a numeric literal; malformed
numeric text (unparsable) is a lexical error naming the offending text"). -/
def parseF64 (s : String) : Option Float :=
  let cs := s.toList
  if cs.count '.' ≤ 1 then
    let intPart := cs.takeWhile (fun c => c != '.')
    let fracPart := (cs.dropWhile (fun c => c != '.')).drop 1
    let digitsVal : List Char → Nat :=
      fun l => l.foldl (fun a c => a * 10 + (c.toNat - 48)) 0
    some (Float.ofScientific (digitsVal (intPart ++ fracPart)) true fracPart.length)
  else none

/-- The scanning loops of `src/lexer.rs` (lines 21-23, 45-47, 59-61):
starting at `i`, advance while the position is in bounds and the character
satisfies `p`; returns the first position where the loop stops. -/
def scanEnd (p : Char → Bool) (cs : List Char) (i : Nat) : Nat :=
  if h : i < cs.length then
    if p cs[i] then scanEnd p cs (i + 1) else i
  else i
termination_by cs.length - i
decreasing_by omega

theorem scanEnd_ge (p : Char → Bool) (cs : List Char) :
    ∀ i, i ≤ scanEnd p cs i := by
  suffices h : ∀ n i, cs.length - i ≤ n → i ≤ scanEnd p cs i by
    intro i; exact h (cs.length - i) i le_rfl
  intro n
  induction n with
  | zero =>
    intro i hni
    rw [scanEnd]
    split
    · omega
    · exact le_rfl
  | succ n ih =>
    intro i hni
    rw [scanEnd]
    split
    · split
      · exact le_trans (by omega) (ih (i + 1) (by omega))
      · exact le_rfl
    · exact le_rfl

/-- Collects the characters `cs[start..stop]` into a string, as the Rust
`chars[start..i].iter().collect::<String>()` does. -/
def sliceStr (cs : List Char) (start stop : Nat) : String :=
  ((cs.drop start).take (stop - start)).asString

/-- The main loop of `src/lexer.rs::lexer` (lines 8-89), one recursive step
per `continue`.  `i` is the cursor into the full character vector `cs`.
Differences of representation only: the Rust loop pushes tokens onto a
vector, modelled here by consing onto the recursive result; on the
unexpected-character path the Rust code pushes `Token::EOF` onto its local
vector and then returns `Err`, discarding that vector, so no `EOF` appears
in any returned value. -/
def lexAux (cs : List Char) (i : Nat) : Except String (List Token) :=
  if h : i < cs.length then
    let c := cs[i]
    if c.isWhitespace then
      lexAux cs (i + 1)
    else if identStart c then
      let j := scanEnd identCont cs (i + 1)
      let slice := sliceStr cs i j
      (lexAux cs j).map (fun ts => keywordLookup slice :: ts)
    else if c.isDigit then
      let j := scanEnd numCont cs (i + 1)
      let slice := sliceStr cs i j
      match parseF64 slice with
      | none => .error ("Invalid number: " ++ slice)
      | some v => (lexAux cs j).map (fun ts => Token.Number v :: ts)
    else if c == '"' then
      let j := scanEnd (fun ch => ch != '"') cs (i + 1)
      if h2 : j < cs.length then
        (lexAux cs (j + 1)).map (fun ts => Token.String (sliceStr cs (i + 1) j) :: ts)
      else
        .error "Unterminated string literal"
    else
      match charOp c with
      | some t => (lexAux cs (i + 1)).map (fun ts => t :: ts)
      | none => .error ("Unexpected token starting at index " ++ toString i)
  else
    .ok []
termination_by cs.length - i
decreasing_by
  all_goals
    first
    | omega
    | (have hge := scanEnd_ge identCont cs (i + 1); omega)
    | (have hge := scanEnd_ge numCont cs (i + 1); omega)
    | (have hge := scanEnd_ge (fun ch => ch != '"') cs (i + 1); omega)

/-- `src/lexer.rs::lexer`: lexes the whole input string. -/
def lexer (content : String) : Except String (List Token) :=
  lexAux content.toList 0

end Lex

namespace Parse

/-- Modelled from the spec: the `Token` declaration that `src/parser.rs` is
written against is not in the snapshot (`src/tokens.rs` holds only the
older minimal set).  Variants follow §3 of the spec — keyword markers
(`let`, `print`, `if`, `else`, `while`, `for`, `fn`, `return`, block
terminator), type markers (`int`, `float`, `string`, `bool`, `list<T>`),
literal payloads, identifier, punctuation, operators, end-of-input — and
the constructor names used throughout `src/parser.rs` (`Integer`, `Float`,
`TypeInt`, `TypeList`, `Func`, `EndOfCondition`, `Range`, `Unknown`, …). -/
inductive Token where
  | Let
  | Print
  | If
  | Else
  | While
  | For
  | Func
  | Return
  | EndOfCondition
  | Identifier (s : String)
  | Integer (n : Int)
  | Float (v : Float)
  | String (s : String)
  | Boolean (b : Bool)
  | List (elements : List Token)
  | TypeInt
  | TypeFloat
  | TypeString
  | TypeBool
  | TypeList (inner : Token)
  | Assign
  | Plus
  | Minus
  | Multiply
  | Divide
  | Equals
  | NotEquals
  | Greater
  | Lesser
  | GreaterEquals
  | LesserEquals
  | And
  | Or
  | LParen
  | RParen
  | LBrace
  | RBrace
  | LBracket
  | RBracket
  | Colon
  | Comma
  | Dot
  | Range
  | Semicolon
  | EOF
  | Unknown

mutual

/-- Structural equality on tokens, as derived by Rust's
`#[derive(PartialEq)]`: same variant and equal payloads (Rust compares
`f64` payloads with IEEE `==`, modelled by `Float`'s `==`). -/
def tokenEq : Token → Token → Bool
  | .Let, .Let => true
  | .Print, .Print => true
  | .If, .If => true
  | .Else, .Else => true
  | .While, .While => true
  | .For, .For => true
  | .Func, .Func => true
  | .Return, .Return => true
  | .EndOfCondition, .EndOfCondition => true
  | .Identifier a, .Identifier b => a == b
  | .Integer a, .Integer b => a == b
  | .Float a, .Float b => a == b
  | .String a, .String b => a == b
  | .Boolean a, .Boolean b => a == b
  | .List a, .List b => tokenListEq a b
  | .TypeInt, .TypeInt => true
  | .TypeFloat, .TypeFloat => true
  | .TypeString, .TypeString => true
  | .TypeBool, .TypeBool => true
  | .TypeList a, .TypeList b => tokenEq a b
  | .Assign, .Assign => true
  | .Plus, .Plus => true
  | .Minus, .Minus => true
  | .Multiply, .Multiply => true
  | .Divide, .Divide => true
  | .Equals, .Equals => true
  | .NotEquals, .NotEquals => true
  | .Greater, .Greater => true
  | .Lesser, .Lesser => true
  | .GreaterEquals, .GreaterEquals => true
  | .LesserEquals, .LesserEquals => true
  | .And, .And => true
  | .Or, .Or => true
  | .LParen, .LParen => true
  | .RParen, .RParen => true
  | .LBrace, .LBrace => true
  | .RBrace, .RBrace => true
  | .LBracket, .LBracket => true
  | .RBracket, .RBracket => true
  | .Colon, .Colon => true
  | .Comma, .Comma => true
  | .Dot, .Dot => true
  | .Range, .Range => true
  | .Semicolon, .Semicolon => true
  | .EOF, .EOF => true
  | .Unknown, .Unknown => true
  | _, _ => false

/-- Equality of token lists (payload of `Token::List`). -/
def tokenListEq : List Token → List Token → Bool
  | [], [] => true
  | a :: as, b :: bs => tokenEq a b && tokenListEq as bs
  | _, _ => false

end

/-- Variant index, modelling `std::mem::discriminant`: two tokens have the
same discriminant exactly when they are built from the same variant,
regardless of payloads. -/
def discriminant : Token → Nat
  | .Let => 0
  | .Print => 1
  | .If => 2
  | .Else => 3
  | .While => 4
  | .For => 5
  | .Func => 6
  | .Return => 7
  | .EndOfCondition => 8
  | .Identifier _ => 9
  | .Integer _ => 10
  | .Float _ => 11
  | .String _ => 12
  | .Boolean _ => 13
  | .List _ => 14
  | .TypeInt => 15
  | .TypeFloat => 16
  | .TypeString => 17
  | .TypeBool => 18
  | .TypeList _ => 19
  | .Assign => 20
  | .Plus => 21
  | .Minus => 22
  | .Multiply => 23
  | .Divide => 24
  | .Equals => 25
  | .NotEquals => 26
  | .Greater => 27
  | .Lesser => 28
  | .GreaterEquals => 29
  | .LesserEquals => 30
  | .And => 31
  | .Or => 32
  | .LParen => 33
  | .RParen => 34
  | .LBrace => 35
  | .RBrace => 36
  | .LBracket => 37
  | .RBracket => 38
  | .Colon => 39
  | .Comma => 40
  | .Dot => 41
  | .Range => 42
  | .Semicolon => 43
  | .EOF => 44
  | .Unknown => 45

/-- The discriminant comparison of `src/parser.rs` line 104:
`std::mem::discriminant(existing_val) == std::mem::discriminant(&value)`. -/
def sameVariant (a b : Token) : Bool := discriminant a == discriminant b

/-- `src/ast.rs::LiteralValue`. -/
inductive LiteralValue where
  | Int (n : Int)
  | Float (v : Float)
  | Str (s : String)
  | Bool (b : Bool)
  | Nil

/-- The expression AST.  Variants are those of `src/ast.rs::Expr`, plus
`MethodCall` which `src/parser.rs` (line 850) constructs but which is
missing from the snapshot's `ast.rs`; it is modelled from the spec §3
("method call (receiver expression + method name + ordered argument
list)").  The snapshot's unused `ListAssign` expression variant is not
constructed by the parser and is omitted. -/
inductive Expr where
  | Binary (left : Expr) (op : Token) (right : Expr)
  | Grouping (e : Expr)
  | Literal (v : LiteralValue)
  | Variable (name : String)
  | Unary (operator : Token) (right : Expr)
  | Assign (name : String) (value : Expr)
  | Logical (left : Expr) (operator : Token) (right : Expr)
  | Call (callee : Expr) (paren : Token) (arguments : List Expr)
  | List (elements : List Expr)
  | Index (list : Expr) (index : Expr)
  | MethodCall (object : Expr) (method : String) (args : List Expr)

/-- The statement AST of `src/ast.rs::Stmt`, plus `ListAssign` which
`src/parser.rs` constructs (lines 302, 906) but which is missing from the
snapshot's `ast.rs`; modelled from the spec §4.2 ("indexed assignment"). -/
inductive Stmt where
  | Expression (e : Expr)
  | Let (name : String) (data_type : Token) (value : Expr)
  | Print (e : Expr)
  | Block (stmts : List Stmt)
  | If (condition : Expr) (then_branch : Stmt) (else_branch : Option Stmt)
  | While (condition : Expr) (body : Stmt)
  | For (var_name : String) (start_value : Expr) (end_value : Expr) (body : Stmt)
  | Func (name : String) (params : List (String × Token)) (body : List Stmt)
  | Return (keyword : Token) (value : Option Expr)
  | ListAssign (list_name : String) (indices : List Expr) (value : Expr)

/-- Modelled from the spec: `error_handler::ParseError` is not in the
snapshot; its variants follow §7 ("unexpected token (carries the expected
construct and the token actually found, or end of input), … undeclared
variable reference, type mismatch on assignment (carries expected vs.
found)") and the constructions in `src/parser.rs`. -/
inductive PError where
  | UnexpectedToken (expected : Token) (found : Option Token)
  | TypeMismatch (expected : Token) (found : Token)
  | UndeclaredVariable (name : String)

/-- One scope: a map from variable names to value tokens
(`HashMap<String, Token>`), modelled as an association list. -/
abbrev Scope := List (String × Token)

/-- `HashMap::get` on one scope. -/
def scopeGet : Scope → String → Option Token
  | [], _ => none
  | (m, w) :: rest, n => if m == n then some w else scopeGet rest n

/-- `HashMap::insert` on one scope: overwrite the binding if the key is
present, add it otherwise. -/
def scopeInsert : Scope → String → Token → Scope
  | [], n, v => [(n, v)]
  | (m, w) :: rest, n, v =>
    if m == n then (n, v) :: rest else (m, w) :: scopeInsert rest n v

/-- The parser state (`struct Parser`, src/parser.rs lines 12-21).  The
Rust struct also carries `output: Vec<String>` — written exactly once, in
`parse_let`, with a debug string, and never read — and `functions:
HashMap<String, Function>`, which no function in the file reads or writes;
both are omitted here.  The scope stack is kept.  Representation note: the
Rust code stores the innermost scope at the END of its `Vec` and always
accesses the stack through `.last_mut()` / `.iter().rev()` /
`.iter_mut().rev()`; here the innermost scope is the HEAD of the list, so
each of those reversed traversals becomes plain head-first recursion. -/
structure PState where
  tokens : List Token
  pos : Nat
  scopes : List Scope

/-- `Parser::new` (src/parser.rs lines 24-33): position 0 and a single
global scope. -/
def ParserNew (tokens : List Token) : PState :=
  { tokens := tokens, pos := 0, scopes := [[]] }

/-- `Parser::token_to_literal` (lines 35-43). -/
def tokenToLiteral (token : Token) : LiteralValue :=
  match token with
  | .Integer n => .Int n
  | .Float f => .Float f
  | .String s => .Str s
  | .Boolean b => .Bool b
  | _ => .Nil

/-- `Parser::current_token` (lines 46-49). -/
def currentToken (s : PState) : Option Token :=
  s.tokens[s.pos]?

/-- `Parser::peek` (lines 52-55). -/
def peek (s : PState) : Option Token :=
  s.tokens[s.pos + 1]?

/-- `Parser::eat` (lines 59-83): if the current token structurally equals
`tokenType`, advance by one; otherwise report an unexpected-token error
with the token found (or `none` past the end of input). -/
def eat (tokenType : Token) (s : PState) : Except PError PState :=
  match currentToken s with
  | some tok =>
    if tokenEq tok tokenType then
      .ok { s with pos := s.pos + 1 }
    else
      .error (.UnexpectedToken tokenType (some tok))
  | none => .error (.UnexpectedToken tokenType none)

/-- `Parser::check` (lines 576-582). -/
def check (token : Token) (s : PState) : Bool :=
  match currentToken s with
  | some t => tokenEq t token
  | none => false

/-- `Parser::define_variable` (lines 86-90): insert into the innermost
scope.  The Rust code unwraps `last_mut()`, which is safe because the
stack is never empty; the `[]` case is unreachable. -/
def defineVariable (scopes : List Scope) (name : String) (value : Token) : List Scope :=
  match scopes with
  | [] => []
  | s :: rest => scopeInsert s name value :: rest

/-- `Parser::get_variable` (lines 121-131): search from the innermost
scope outwards, returning the first match. -/
def getVariable (scopes : List Scope) (name : String) : Option Token :=
  match scopes with
  | [] => none
  | s :: rest =>
    match scopeGet s name with
    | some value => some value
    | none => getVariable rest name

/-- `Parser::assign_variable` (lines 96-117): search from the innermost
scope outwards for an existing binding; overwrite it when the new value's
variant matches, fail with `TypeMismatch` when it does not, and fail with
`UndeclaredVariable` when no scope binds the name.  The Rust function
mutates `self.scopes` in place; that is modelled by returning the result
together with the (possibly updated) scope stack. -/
def assignVariable (scopes : List Scope) (name : String) (value : Token) :
    Except PError Unit × List Scope :=
  match scopes with
  | [] => (.error (.UndeclaredVariable name), [])
  | s :: rest =>
    match scopeGet s name with
    | some existingVal =>
      if sameVariant existingVal value then
        (.ok (), scopeInsert s name value :: rest)
      else
        (.error (.TypeMismatch existingVal value), s :: rest)
    | none =>
      let r := assignVariable rest name value
      (r.1, s :: r.2)

mutual

/-- `Parser::check_type_compatibility` (lines 203-231). -/
def checkTypeCompatibility : Token → Token → Bool
  | .TypeInt, .Integer _ => true
  | .TypeString, .String _ => true
  | .TypeBool, .Boolean _ => true
  | .TypeFloat, .Float _ => true
  | .TypeList innerRule, .List elements => checkTypeList innerRule elements
  | _, _ => false

/-- The element loop of `check_type_compatibility` (lines 214-225): an
empty list is accepted outright; otherwise every element must be
recursively compatible with the inner rule. -/
def checkTypeList (innerRule : Token) : List Token → Bool
  | [] => true
  | e :: es => checkTypeCompatibility innerRule e && checkTypeList innerRule es

end

/-- Result of a parsing routine: mirrors Rust's `Result<T, ParseError>`
with one extra case, `fuelOut`, produced only when the step-count fuel is
exhausted.  The Rust functions recurse on the token stream; the fuel makes
that recursion structural, and every theorem below is about `ok`/`error`
results, which coincide with the Rust behaviour whenever the fuel
suffices. -/
inductive PRes (α : Type) where
  | ok (a : α)
  | error (e : PError)
  | fuelOut

/-- Sequencing of parse results: models Rust's `?` operator. -/
def PRes.bind {α β : Type} : PRes α → (α → PRes β) → PRes β
  | .ok a, f => f a
  | .error e, _ => .error e
  | .fuelOut, _ => .fuelOut

/-- Lifts the `Except` result of `eat` into `PRes`. -/
def liftE {α : Type} : Except PError α → PRes α
  | .ok a => .ok a
  | .error e => .error e

/-- `Parser::parse_type` (lines 167-201): a scalar type marker is consumed
directly; a list type marker is followed by `<`, a recursive inner type
and `>`. -/
def parseType : Nat → PState → PRes (Token × PState)
  | 0, _ => .fuelOut
  | fuel + 1, s =>
    match currentToken s with
    | some next =>
      match next with
      | .TypeInt | .TypeString | .TypeBool | .TypeFloat =>
        .ok (next, { s with pos := s.pos + 1 })
      | .TypeList _ =>
        (liftE (eat .Lesser { s with pos := s.pos + 1 })).bind fun s1 =>
        (parseType fuel s1).bind fun (innerType, s2) =>
        (liftE (eat .Greater s2)).bind fun s3 =>
        .ok (.TypeList innerType, s3)
      | _ => .error (.UnexpectedToken .TypeInt (some next))
    | none => .error (.UnexpectedToken .TypeInt none)

mutual

/-- `Parser::parse_expr` (lines 586-606): parse a term, then fold further
`+`/`-` terms left-associatively (the `while` loop is `parseExprLoop`). -/
def parseExpr : Nat → PState → PRes (Expr × PState)
  | 0, _ => .fuelOut
  | fuel + 1, s =>
    (parseTerm fuel s).bind fun (left, s1) =>
    parseExprLoop fuel left s1

/-- The `while` loop of `parse_expr`: on `+`/`-`, consume the operator,
parse the next term and extend the left-nested tree. -/
def parseExprLoop : Nat → Expr → PState → PRes (Expr × PState)
  | 0, _, _ => .fuelOut
  | fuel + 1, left, s =>
    match currentToken s with
    | some tok =>
      match tok with
      | .Plus | .Minus =>
        (parseTerm fuel { s with pos := s.pos + 1 }).bind fun (right, s1) =>
        parseExprLoop fuel (.Binary left tok right) s1
      | _ => .ok (left, s)
    | none => .ok (left, s)

/-- `Parser::parse_term` (lines 610-628): parse a factor, then fold
further `*`/`/` factors left-associatively. -/
def parseTerm : Nat → PState → PRes (Expr × PState)
  | 0, _ => .fuelOut
  | fuel + 1, s =>
    (parseFactor fuel s).bind fun (left, s1) =>
    parseTermLoop fuel left s1

/-- The `while` loop of `parse_term`. -/
def parseTermLoop : Nat → Expr → PState → PRes (Expr × PState)
  | 0, _, _ => .fuelOut
  | fuel + 1, left, s =>
    match currentToken s with
    | some tok =>
      match tok with
      | .Multiply | .Divide =>
        (parseFactor fuel { s with pos := s.pos + 1 }).bind fun (right, s1) =>
        parseTermLoop fuel (.Binary left tok right) s1
      | _ => .ok (left, s)
    | none => .ok (left, s)

/-- `Parser::parse_factor` (lines 631-712): literals, identifiers (fanning
out to call / list index / method call / variable), parenthesized
grouping, bracketed list literals, unary minus. -/
def parseFactor : Nat → PState → PRes (Expr × PState)
  | 0, _ => .fuelOut
  | fuel + 1, s =>
    match currentToken s with
    | none => .error (.UnexpectedToken (.Integer 0) none)
    | some tok =>
      match tok with
      | .Integer _ | .Float _ | .String _ | .Boolean _ =>
        .ok (.Literal (tokenToLiteral tok), { s with pos := s.pos + 1 })
      | .Identifier name =>
        let s1 : PState := { s with pos := s.pos + 1 }
        if check .LParen s1 then
          parseCallExpr fuel name s1
        else if check .LBracket s1 then
          parseListIndexLoop fuel (.Variable name) s1
        else if check .Dot s1 then
          parseMethodCall fuel name s1
        else
          .ok (.Variable name, s1)
      | .LParen =>
        (liftE (eat .LParen s)).bind fun s1 =>
        (parseExpr fuel s1).bind fun (e, s2) =>
        (liftE (eat .RParen s2)).bind fun s3 =>
        .ok (.Grouping e, s3)
      | .LBracket =>
        (liftE (eat .LBracket s)).bind fun s1 =>
        if check .RBracket s1 then
          (liftE (eat .RBracket s1)).bind fun s2 =>
          .ok (.List [], s2)
        else
          (parseFactorListLoop fuel s1).bind fun (elements, s2) =>
          (liftE (eat .RBracket s2)).bind fun s3 =>
          .ok (.List elements, s3)
      | .Minus =>
        (liftE (eat .Minus s)).bind fun s1 =>
        (parseFactor fuel s1).bind fun (right, s2) =>
        .ok (.Unary .Minus right, s2)
      | _ => .error (.UnexpectedToken .Unknown (some tok))

/-- The element loop of the list-literal branch of `parse_factor` (lines
680-691): parse an element; a comma is eaten and the loop continues,
otherwise the elements are complete. -/
def parseFactorListLoop : Nat → PState → PRes (List Expr × PState)
  | 0, _ => .fuelOut
  | fuel + 1, s =>
    (parseExpr fuel s).bind fun (e, s1) =>
    if check .Comma s1 then
      (liftE (eat .Comma s1)).bind fun s2 =>
      (parseFactorListLoop fuel s2).bind fun (rest, s3) =>
      .ok (e :: rest, s3)
    else
      .ok ([e], s1)

/-- `Parser::parse_call_expr` (lines 714-738): the identifier was already
consumed; consume `(`, the comma-separated arguments (if the current token
is not `)`), then `)`. -/
def parseCallExpr : Nat → String → PState → PRes (Expr × PState)
  | 0, _, _ => .fuelOut
  | fuel + 1, name, s =>
    (liftE (eat .LParen s)).bind fun s1 =>
    if (match currentToken s1 with
        | some t => !tokenEq t .RParen
        | none => true) then
      (parseCallArgsLoop fuel s1).bind fun (arguments, s2) =>
      (liftE (eat .RParen s2)).bind fun s3 =>
      .ok (.Call (.Variable name) .RParen arguments, s3)
    else
      (liftE (eat .RParen s1)).bind fun s3 =>
      .ok (.Call (.Variable name) .RParen [], s3)

/-- The argument loop of `parse_call_expr` (lines 720-727): parse an
argument; on a comma advance by one and continue. -/
def parseCallArgsLoop : Nat → PState → PRes (List Expr × PState)
  | 0, _ => .fuelOut
  | fuel + 1, s =>
    (parseExpr fuel s).bind fun (e, s1) =>
    match currentToken s1 with
    | some .Comma =>
      (parseCallArgsLoop fuel { s1 with pos := s1.pos + 1 }).bind fun (rest, s2) =>
      .ok (e :: rest, s2)
    | _ => .ok ([e], s1)

/-- The `while self.check(LBracket)` loop of `Parser::parse_list_index`
(lines 260-283), carrying the expression built so far: each `[expr]`
suffix wraps it in an `Index` node. -/
def parseListIndexLoop : Nat → Expr → PState → PRes (Expr × PState)
  | 0, _, _ => .fuelOut
  | fuel + 1, currentExpr, s =>
    if check .LBracket s then
      (liftE (eat .LBracket s)).bind fun s1 =>
      (parseExpr fuel s1).bind fun (indexExpr, s2) =>
      (liftE (eat .RBracket s2)).bind fun s3 =>
      parseListIndexLoop fuel (.Index currentExpr indexExpr) s3
    else
      .ok (currentExpr, s)

/-- `Parser::parse_method_call` (lines 809-855): consume `.`, the method
name, `(`, the comma-separated arguments (if the current token is not
`)`), then `)`. -/
def parseMethodCall : Nat → String → PState → PRes (Expr × PState)
  | 0, _, _ => .fuelOut
  | fuel + 1, varName, s =>
    (liftE (eat .Dot s)).bind fun s1 =>
    match currentToken s1 with
    | some (.Identifier methodName) =>
      (liftE (eat .LParen { s1 with pos := s1.pos + 1 })).bind fun s2 =>
      if check .RParen s2 then
        (liftE (eat .RParen s2)).bind fun s3 =>
        .ok (.MethodCall (.Variable varName) methodName [], s3)
      else
        (parseMethodArgsLoop fuel s2).bind fun (args, s3) =>
        (liftE (eat .RParen s3)).bind fun s4 =>
        .ok (.MethodCall (.Variable varName) methodName args, s4)
    | other => .error (.UnexpectedToken (.Identifier "method name") other)

/-- The argument loop of `parse_method_call` (lines 831-842): parse an
argument; a comma is eaten and the loop continues. -/
def parseMethodArgsLoop : Nat → PState → PRes (List Expr × PState)
  | 0, _ => .fuelOut
  | fuel + 1, s =>
    (parseExpr fuel s).bind fun (e, s1) =>
    match currentToken s1 with
    | some .Comma =>
      (liftE (eat .Comma s1)).bind fun s2 =>
      (parseMethodArgsLoop fuel s2).bind fun (rest, s3) =>
      .ok (e :: rest, s3)
    | _ => .ok ([e], s1)

end

/-- `Parser::parse_list_index` (lines 260-283): start from the bare
variable and fold bracket suffixes via `parseListIndexLoop`. -/
def parseListIndex (fuel : Nat) (listName : String) (s : PState) :
    PRes (Expr × PState) :=
  parseListIndexLoop fuel (.Variable listName) s

/-- `Parser::parse_comparison` (lines 782-807): one additive expression;
then at most one comparison operator and one further additive expression —
the function returns after the first comparison node, never looping. -/
def parseComparison : Nat → PState → PRes (Expr × PState)
  | 0, _ => .fuelOut
  | fuel + 1, s =>
    (parseExpr fuel s).bind fun (left, s1) =>
    match currentToken s1 with
    | some tok =>
      match tok with
      | .Equals | .NotEquals | .Greater | .Lesser | .GreaterEquals | .LesserEquals =>
        (parseExpr fuel { s1 with pos := s1.pos + 1 }).bind fun (right, s2) =>
        .ok (.Binary left tok right, s2)
      | _ => .ok (left, s1)
    | none => .ok (left, s1)

/-- The `while` loop of `Parser::parse_logic_and` (lines 761-778). -/
def parseLogicAndLoop : Nat → Expr → PState → PRes (Expr × PState)
  | 0, _, _ => .fuelOut
  | fuel + 1, left, s =>
    match currentToken s with
    | some tok =>
      if tokenEq tok .And then
        (parseComparison fuel { s with pos := s.pos + 1 }).bind fun (right, s1) =>
        parseLogicAndLoop fuel (.Logical left tok right) s1
      else
        .ok (left, s)
    | none => .ok (left, s)

/-- `Parser::parse_logic_and` (lines 761-778). -/
def parseLogicAnd : Nat → PState → PRes (Expr × PState)
  | 0, _ => .fuelOut
  | fuel + 1, s =>
    (parseComparison fuel s).bind fun (left, s1) =>
    parseLogicAndLoop fuel left s1

/-- The `while` loop of `Parser::parse_logic_or` (lines 740-759). -/
def parseLogicOrLoop : Nat → Expr → PState → PRes (Expr × PState)
  | 0, _, _ => .fuelOut
  | fuel + 1, left, s =>
    match currentToken s with
    | some tok =>
      if tokenEq tok .Or then
        (parseLogicAnd fuel { s with pos := s.pos + 1 }).bind fun (right, s1) =>
        parseLogicOrLoop fuel (.Logical left tok right) s1
      else
        .ok (left, s)
    | none => .ok (left, s)

/-- `Parser::parse_logic_or` (lines 740-759). -/
def parseLogicOr : Nat → PState → PRes (Expr × PState)
  | 0, _ => .fuelOut
  | fuel + 1, s =>
    (parseLogicAnd fuel s).bind fun (left, s1) =>
    parseLogicOrLoop fuel left s1

/-- `Parser::parse_condition` (lines 349-351). -/
def parseCondition (fuel : Nat) (s : PState) : PRes (Expr × PState) :=
  parseLogicOr fuel s

/-- `Parser::parse_let` (lines 135-165): `let`, an identifier, `:`, a type
annotation, `=`, an initializer expression.  The Rust function also pushes
one debug string onto `self.output` after `parse_type`; `output` is never
read and is omitted from the state.  No scope operation is performed. -/
def parseLet : Nat → PState → PRes (Stmt × PState)
  | 0, _ => .fuelOut
  | fuel + 1, s =>
    (liftE (eat .Let s)).bind fun s1 =>
    match currentToken s1 with
    | some (.Identifier varName) =>
      (liftE (eat .Colon { s1 with pos := s1.pos + 1 })).bind fun s2 =>
      (parseType fuel s2).bind fun (declaredType, s3) =>
      (liftE (eat .Assign s3)).bind fun s4 =>
      (parseExpr fuel s4).bind fun (valueExpr, s5) =>
      .ok (.Let varName declaredType valueExpr, s5)
    | other => .error (.UnexpectedToken (.Identifier "name") other)

/-- `Parser::parse_print` (lines 310-316). -/
def parsePrint : Nat → PState → PRes (Stmt × PState)
  | 0, _ => .fuelOut
  | fuel + 1, s =>
    (liftE (eat .Print s)).bind fun s1 =>
    (parseExpr fuel s1).bind fun (value, s2) =>
    .ok (.Print value, s2)

/-- `Parser::parse_return` (lines 557-574).  The Rust code reads the
keyword with `current_token().cloned().unwrap()` before eating `return`;
the function is only dispatched when the current token is `return`, so the
unwrap cannot panic — `Token.Return` stands in for the impossible `none`
case. -/
def parseReturn : Nat → PState → PRes (Stmt × PState)
  | 0, _ => .fuelOut
  | fuel + 1, s =>
    let keyword := match currentToken s with
      | some t => t
      | none => Token.Return
    (liftE (eat .Return s)).bind fun s1 =>
    if !check .EndOfCondition s1 && !check .Else s1 && (currentToken s1).isSome then
      (parseExpr fuel s1).bind fun (v, s2) =>
      .ok (.Return keyword (some v), s2)
    else
      .ok (.Return keyword none, s1)

/-- The parameter loop of `Parser::parse_fn` (lines 515-539): a parameter
name, `:`, a type; a comma advances by one and continues the loop. -/
def parseFnParamsLoop : Nat → PState → PRes (List (String × Token) × PState)
  | 0, _ => .fuelOut
  | fuel + 1, s =>
    match currentToken s with
    | some (.Identifier paramName) =>
      (liftE (eat .Colon { s with pos := s.pos + 1 })).bind fun s1 =>
      (parseType fuel s1).bind fun (paramType, s2) =>
      (match currentToken s2 with
        | some .Comma =>
          (parseFnParamsLoop fuel { s2 with pos := s2.pos + 1 }).bind fun (rest, s3) =>
          .ok ((paramName, paramType) :: rest, s3)
        | _ => .ok ([(paramName, paramType)], s2))
    | other => .error (.UnexpectedToken (.Identifier "param name") other)

/-- The `while self.check(LBracket)` index loop of the identifier case of
`Parser::parse_statement` (lines 894-899): collect `[expr]` index
expressions. -/
def parseStatementIndicesLoop : Nat → PState → PRes (List Expr × PState)
  | 0, _ => .fuelOut
  | fuel + 1, s =>
    if check .LBracket s then
      (liftE (eat .LBracket s)).bind fun s1 =>
      (parseExpr fuel s1).bind fun (idx, s2) =>
      (liftE (eat .RBracket s2)).bind fun s3 =>
      (parseStatementIndicesLoop fuel s3).bind fun (rest, s4) =>
      .ok (idx :: rest, s4)
    else
      .ok ([], s)

mutual

/-- `Parser::parse_block` (lines 380-394): collect statements until the
current token is the block terminator, `else`, or `EOF` (none of which is
consumed), or the input is exhausted.  No scope is pushed or popped: the
function never touches `self.scopes`. -/
def parseBlock : Nat → PState → PRes (List Stmt × PState)
  | 0, _ => .fuelOut
  | fuel + 1, s =>
    match currentToken s with
    | some tok =>
      match tok with
      | .EndOfCondition | .Else => .ok ([], s)
      | .EOF => .ok ([], s)
      | _ =>
        (parseStatement fuel s).bind fun (stmt, s1) =>
        (parseBlock fuel s1).bind fun (rest, s2) =>
        .ok (stmt :: rest, s2)
    | none => .ok ([], s)

/-- `Parser::parse_if` (lines 397-426): `if`, condition, then-block, an
optional `else` block (present iff the current token is `else`), then a
required `end`. -/
def parseIf : Nat → PState → PRes (Stmt × PState)
  | 0, _ => .fuelOut
  | fuel + 1, s =>
    (liftE (eat .If s)).bind fun s1 =>
    (parseCondition fuel s1).bind fun (condition, s2) =>
    (parseBlock fuel s2).bind fun (thenStmts, s3) =>
    match currentToken s3 with
    | some .Else =>
      (liftE (eat .Else s3)).bind fun s4 =>
      (parseBlock fuel s4).bind fun (elseStmts, s5) =>
      (liftE (eat .EndOfCondition s5)).bind fun s6 =>
      .ok (.If condition (.Block thenStmts) (some (.Block elseStmts)), s6)
    | _ =>
      (liftE (eat .EndOfCondition s3)).bind fun s6 =>
      .ok (.If condition (.Block thenStmts) none, s6)

/-- `Parser::parse_while` (lines 429-446). -/
def parseWhile : Nat → PState → PRes (Stmt × PState)
  | 0, _ => .fuelOut
  | fuel + 1, s =>
    (liftE (eat .While s)).bind fun s1 =>
    (parseCondition fuel s1).bind fun (condition, s2) =>
    (parseBlock fuel s2).bind fun (bodyStmts, s3) =>
    (liftE (eat .EndOfCondition s3)).bind fun s4 =>
    .ok (.While condition (.Block bodyStmts), s4)

/-- `Parser::parse_for` (lines 448-492): `for`, the `int` type marker, the
loop variable, `= start .. end`, then a body block; unlike `if`/`while`/
`fn`, no block terminator is consumed. -/
def parseFor : Nat → PState → PRes (Stmt × PState)
  | 0, _ => .fuelOut
  | fuel + 1, s =>
    (liftE (eat .For s)).bind fun s1 =>
    match currentToken s1 with
    | some .TypeInt =>
      (liftE (eat .TypeInt s1)).bind fun s2 =>
      match currentToken s2 with
      | some (.Identifier varName) =>
        (liftE (eat .Assign { s2 with pos := s2.pos + 1 })).bind fun s3 =>
        (parseExpr fuel s3).bind fun (startValue, s4) =>
        (liftE (eat .Range s4)).bind fun s5 =>
        (parseExpr fuel s5).bind fun (endValue, s6) =>
        (parseBlock fuel s6).bind fun (bodyStmts, s7) =>
        .ok (.For varName startValue endValue (.Block bodyStmts), s7)
      | other => .error (.UnexpectedToken (.Identifier "variable") other)
    | other => .error (.UnexpectedToken .TypeInt other)

/-- `Parser::parse_fn` (lines 494-555): `fn`, the function name, a
parenthesized parameter list, a body block, and `end`.  The function is
not registered in any function table. -/
def parseFn : Nat → PState → PRes (Stmt × PState)
  | 0, _ => .fuelOut
  | fuel + 1, s =>
    (liftE (eat .Func s)).bind fun s1 =>
    match currentToken s1 with
    | some (.Identifier name) =>
      (liftE (eat .LParen { s1 with pos := s1.pos + 1 })).bind fun s2 =>
      if check .RParen s2 then
        (liftE (eat .RParen s2)).bind fun s3 =>
        (parseBlock fuel s3).bind fun (body, s4) =>
        (liftE (eat .EndOfCondition s4)).bind fun s5 =>
        .ok (.Func name [] body, s5)
      else
        (parseFnParamsLoop fuel s2).bind fun (params, s3) =>
        (liftE (eat .RParen s3)).bind fun s4 =>
        (parseBlock fuel s4).bind fun (body, s5) =>
        (liftE (eat .EndOfCondition s5)).bind fun s6 =>
        .ok (.Func name params body, s6)
    | other => .error (.UnexpectedToken (.Identifier "function name") other)

/-- `Parser::parse_statement` (lines 859-943): dispatch on the current
token; the identifier case distinguishes assignment, indexed
assignment/read, method call, call, and bare variable by one-token
lookahead after consuming the identifier. -/
def parseStatement : Nat → PState → PRes (Stmt × PState)
  | 0, _ => .fuelOut
  | fuel + 1, s =>
    match currentToken s with
    | none => .error (.UnexpectedToken .Unknown none)
    | some token =>
      match token with
      | .Let => parseLet fuel s
      | .Print => parsePrint fuel s
      | .If => parseIf fuel s
      | .While => parseWhile fuel s
      | .For => parseFor fuel s
      | .Func => parseFn fuel s
      | .Return => parseReturn fuel s
      | .Identifier name =>
        let s1 : PState := { s with pos := s.pos + 1 }
        if check .Assign s1 then
          (liftE (eat .Assign s1)).bind fun s2 =>
          (parseExpr fuel s2).bind fun (value, s3) =>
          .ok (.Expression (.Assign name value), s3)
        else if check .LBracket s1 then
          (parseStatementIndicesLoop fuel s1).bind fun (indices, s2) =>
          if check .Assign s2 then
            (liftE (eat .Assign s2)).bind fun s3 =>
            (parseExpr fuel s3).bind fun (value, s4) =>
            .ok (.ListAssign name indices value, s4)
          else
            .ok (.Expression
              (indices.foldl (fun e idx => .Index e idx) (.Variable name)), s2)
        else if check .Dot s1 then
          (parseMethodCall fuel name s1).bind fun (e, s2) =>
          .ok (.Expression e, s2)
        else if check .LParen s1 then
          (parseCallExpr fuel name s1).bind fun (e, s2) =>
          .ok (.Expression e, s2)
        else
          .ok (.Expression (.Variable name), s1)
      | _ => .error (.UnexpectedToken .Unknown (some token))

end

/-- A multiplicative operator chosen by a Boolean: `*` or `/`. -/
def mulOpOf (b : Bool) : Token := if b then .Divide else .Multiply

/-- An additive operator chosen by a Boolean: `+` or `-`. -/
def addOpOf (b : Bool) : Token := if b then .Minus else .Plus

/-- A product continuation: pairs of a `*`/`/` operator and an integer
literal. -/
abbrev MulChain := List (Bool × Int)

/-- A product of integer literals: a first literal and its multiplicative
continuation. -/
abbrev TermChain := Int × MulChain

/-- A sum continuation: pairs of a `+`/`-` operator and a product. -/
abbrev SumChain := List (Bool × TermChain)

/-- Token sequence of a product continuation. -/
def mulChainToks : MulChain → List Token
  | [] => []
  | (b, m) :: ps => mulOpOf b :: Token.Integer m :: mulChainToks ps

/-- Token sequence of a product of integer literals. -/
def termToks (t : TermChain) : List Token :=
  Token.Integer t.1 :: mulChainToks t.2

/-- The left-nested tree of a product: multiplicative operators associate
left. -/
def termTree (t : TermChain) : Expr :=
  t.2.foldl (fun acc q => .Binary acc (mulOpOf q.1) (.Literal (.Int q.2)))
    (.Literal (.Int t.1))

/-- Token sequence of a sum continuation. -/
def sumChainToks : SumChain → List Token
  | [] => []
  | (b, t) :: rest => addOpOf b :: (termToks t ++ sumChainToks rest)

/-- Token sequence of a parenthesis-free arithmetic expression over
`+ - * /` and integer literals: a sum of products. -/
def sumToks (t0 : TermChain) (rest : SumChain) : List Token :=
  termToks t0 ++ sumChainToks rest

/-- The expression tree the grammar assigns to a sum of products:
additive operators associate left and every product is grouped below its
additive node. -/
def sumTree (t0 : TermChain) (rest : SumChain) : Expr :=
  rest.foldl (fun acc q => .Binary acc (addOpOf q.1) (termTree q.2)) (termTree t0)

/-- A token sequence that may legally follow a product: nothing, or an
additive operator and more input. -/
def addTail (tail : List Token) : Prop :=
  tail = [] ∨ ∃ (b : Bool) (rest2 : List Token), tail = addOpOf b :: rest2

/-- The comparison operators of `parse_comparison` (lines 789-790). -/
def cmpOp : Token → Bool
  | .Equals | .NotEquals | .Greater | .Lesser | .GreaterEquals | .LesserEquals => true
  | _ => false

mutual

/-- No comparison operator occurs at any `Binary` node of the expression. -/
def noCmp : Expr → Bool
  | .Binary l op r => !cmpOp op && noCmp l && noCmp r
  | .Grouping e => noCmp e
  | .Literal _ => true
  | .Variable _ => true
  | .Unary _ r => noCmp r
  | .Assign _ v => noCmp v
  | .Logical l _ r => noCmp l && noCmp r
  | .Call c _ args => noCmp c && noCmpList args
  | .List es => noCmpList es
  | .Index l i => noCmp l && noCmp i
  | .MethodCall o _ args => noCmp o && noCmpList args

/-- `noCmp` on every element of a list of expressions. -/
def noCmpList : List Expr → Bool
  | [] => true
  | e :: es => noCmp e && noCmpList es

end

end Parse

namespace Lex

/-- Characterization of `scanEnd`: if `p` holds on all of `[i, j)` and the
scan must stop at `j` (end of input or a failing character), then the scan
ends exactly at `j`. -/
theorem scanEnd_eq_of (p : Char → Bool) (cs : List Char) :
    ∀ i j, i ≤ j →
      (∀ k (hk : k < cs.length), i ≤ k → k < j → p cs[k] = true) →
      (j = cs.length ∨ ∃ hj : j < cs.length, p cs[j] = false) →
      scanEnd p cs i = j := by
  suffices h : ∀ n i j, j - i ≤ n → i ≤ j →
      (∀ k (hk : k < cs.length), i ≤ k → k < j → p cs[k] = true) →
      (j = cs.length ∨ ∃ hj : j < cs.length, p cs[j] = false) →
      scanEnd p cs i = j by
    intro i j hij hall hstop; exact h (j - i) i j le_rfl hij hall hstop
  intro n
  induction n with
  | zero =>
    intro i j hn hij hall hstop
    have hij' : i = j := by omega
    subst hij'
    rw [scanEnd]
    rcases hstop with h | ⟨hj, hpj⟩
    · rw [dif_neg (by omega)]
    · rw [dif_pos hj, hpj]
      simp
  | succ n ih =>
    intro i j hn hij hall hstop
    rcases Nat.eq_or_lt_of_le hij with h | hlt
    · subst h
      rw [scanEnd]
      rcases hstop with h | ⟨hj, hpj⟩
      · rw [dif_neg (by omega)]
      · rw [dif_pos hj, hpj]
        simp
    · have hi : i < cs.length := by
        rcases hstop with h | ⟨hj, _⟩ <;> omega
      rw [scanEnd]
      rw [dif_pos hi, hall i hi le_rfl hlt]
      exact ih (i + 1) j (by omega) (by omega)
        (fun k hk h1 h2 => hall k hk (by omega) h2) hstop

theorem identStart_not_ws (c : Char) (h : identStart c = true) :
    c.isWhitespace = false := by
  cases hw : c.isWhitespace
  · rfl
  · exfalso
    have hw' : ((c = ' ' ∨ c = '\t') ∨ c = '\x0d') ∨ c = '\n' := by
      simpa [Char.isWhitespace] using hw
    rcases hw' with ((h1 | h1) | h1) | h1 <;> (subst h1; exact absurd h (by decide))

theorem keywordLookup_ne_eof (s : String) : keywordLookup s ≠ Token.EOF := by
  unfold keywordLookup
  split <;> simp

theorem charOp_ne_eof (c : Char) (t : Token) (h : charOp c = some t) :
    t ≠ Token.EOF := by
  unfold charOp at h
  split at h <;> first | (cases h; simp) | simp_all

theorem lexAux_ws_only :
    ∀ (n : Nat) (cs : List Char) (i : Nat), cs.length - i ≤ n →
      (∀ k (hk : k < cs.length), i ≤ k → cs[k].isWhitespace = true) →
      lexAux cs i = .ok [] := by
  intro n
  induction n with
  | zero =>
    intro cs i hn hws
    rw [lexAux]
    rw [dif_neg (by omega)]
  | succ n ih =>
    intro cs i hn hws
    rw [lexAux]
    split
    · next hi =>
      rw [if_pos (hws i hi le_rfl)]
      exact ih cs (i + 1) (by omega) (fun k hk h1 => hws k hk (by omega))
    · rfl

theorem lexAux_no_eof :
    ∀ (n : Nat) (cs : List Char) (i : Nat) (toks : List Token),
      cs.length - i ≤ n → lexAux cs i = .ok toks → Token.EOF ∉ toks := by
  intro n
  induction n with
  | zero =>
    intro cs i toks hn h
    rw [lexAux] at h
    rw [dif_neg (by omega)] at h
    cases h
    simp
  | succ n ih =>
    intro cs i toks hn h
    rw [lexAux] at h
    split at h
    · next hi =>
      simp only [] at h
      split at h
      · exact ih cs (i + 1) toks (by omega) h
      · split at h
        · -- identifier/keyword run
          have hj := scanEnd_ge identCont cs (i + 1)
          cases hr : lexAux cs (scanEnd identCont cs (i + 1)) with
          | error e => rw [hr] at h; simp [Except.map] at h
          | ok ts =>
            rw [hr] at h
            simp only [Except.map, Except.ok.injEq] at h
            subst h
            simp only [List.mem_cons, not_or]
            exact ⟨fun hc => keywordLookup_ne_eof _ hc.symm,
              ih cs _ ts (by omega) hr⟩
        · split at h
          · -- numeric run
            split at h
            · simp at h
            · have hj := scanEnd_ge numCont cs (i + 1)
              cases hr : lexAux cs (scanEnd numCont cs (i + 1)) with
              | error e => rw [hr] at h; simp [Except.map] at h
              | ok ts =>
                rw [hr] at h
                simp only [Except.map, Except.ok.injEq] at h
                subst h
                simp only [List.mem_cons, not_or]
                exact ⟨by simp, ih cs _ ts (by omega) hr⟩
          · split at h
            · -- string literal
              have hj := scanEnd_ge (fun ch => ch != '"') cs (i + 1)
              split at h
              · cases hr : lexAux cs (scanEnd (fun ch => ch != '"') cs (i + 1) + 1) with
                | error e => rw [hr] at h; simp [Except.map] at h
                | ok ts =>
                  rw [hr] at h
                  simp only [Except.map, Except.ok.injEq] at h
                  subst h
                  simp only [List.mem_cons, not_or]
                  exact ⟨by simp, ih cs _ ts (by omega) hr⟩
              · simp at h
            · -- operator or error
              split at h
              · next t ht =>
                cases hr : lexAux cs (i + 1) with
                | error e => rw [hr] at h; simp [Except.map] at h
                | ok ts =>
                  rw [hr] at h
                  simp only [Except.map, Except.ok.injEq] at h
                  subst h
                  simp only [List.mem_cons, not_or]
                  exact ⟨fun hc => charOp_ne_eof _ t ht hc.symm,
                    ih cs (i + 1) ts (by omega) hr⟩
              · simp at h
    · cases h
      simp

/-- C6: the lexer is a pure function of the input that never partially
succeeds: the only way it returns a token list is by scanning to the end of
the input (first conjunct: the sole success base case is end-of-input), and
when the character at the cursor matches no lexical rule (not whitespace,
not an identifier start, not a digit, not a quote, not an operator) it
immediately returns an error naming that character's index — the input
beyond that index is universally quantified and absent from the result, so
no later character is scanned. -/
theorem c6_lexer_unexpected_char :
    (∀ (cs : List Char) (i : Nat), cs.length ≤ i → lexAux cs i = .ok [])
    ∧ (∀ (cs : List Char) (i : Nat) (hi : i < cs.length),
        cs[i].isWhitespace = false →
        identStart cs[i] = false →
        cs[i].isDigit = false →
        (cs[i] == '"') = false →
        charOp cs[i] = none →
        lexAux cs i = .error ("Unexpected token starting at index " ++ toString i)) := by
  constructor
  · intro cs i hlen
    rw [lexAux]
    rw [dif_neg (by omega)]
  · intro cs i hi hw ha hd hq hop
    rw [lexAux]
    rw [dif_pos hi]
    simp only [hw, ha, hd, hq, hop, Bool.false_eq_true, if_false]

theorem c6_witness :
    (['@'].length ≤ 1 ∧ lexAux ['@'] 1 = .ok [])
    ∧ lexAux ['@'] 0 = .error ("Unexpected token starting at index " ++ toString 0) :=
  ⟨⟨by decide, c6_lexer_unexpected_char.1 ['@'] 1 (by decide)⟩,
    c6_lexer_unexpected_char.2 ['@'] 0 (by decide) rfl rfl rfl rfl rfl⟩

/-- C7: when the scanner reaches an opening quote, if no closing quote
occurs anywhere later in the input the lexer fails with the
unterminated-string-literal error; and when the first closing quote is at
position `j`, the emitted token's payload is exactly the characters
strictly between the two quotes (`sliceStr cs (i+1) j`), excluding both
delimiters, with scanning resuming after the closing quote. -/
theorem c7_unterminated_string :
    ∀ (cs : List Char) (i : Nat) (hi : i < cs.length), cs[i] = '"' →
      ((∀ k (hk : k < cs.length), i + 1 ≤ k → cs[k] ≠ '"') →
        lexAux cs i = .error "Unterminated string literal")
      ∧ (∀ j (hj : j < cs.length), i + 1 ≤ j → cs[j] = '"' →
          (∀ k (hk : k < cs.length), i + 1 ≤ k → k < j → cs[k] ≠ '"') →
          lexAux cs i =
            (lexAux cs (j + 1)).map
              (fun ts => Token.String (sliceStr cs (i + 1) j) :: ts)) := by
  intro cs i hi hq
  constructor
  · intro hnone
    have hscan : scanEnd (fun ch => ch != '"') cs (i + 1) = cs.length :=
      scanEnd_eq_of _ cs (i + 1) cs.length (by omega)
        (fun k hk h1 h2 => by simp [hnone k hk h1])
        (Or.inl rfl)
    rw [lexAux]
    rw [dif_pos hi]
    simp only [hq]
    rw [if_neg (by decide), if_neg (by decide), if_neg (by decide),
      if_pos (by decide)]
    rw [hscan]
    rw [dif_neg (by omega)]
  · intro j hj hij hqj hbefore
    have hscan : scanEnd (fun ch => ch != '"') cs (i + 1) = j :=
      scanEnd_eq_of _ cs (i + 1) j hij
        (fun k hk h1 h2 => by simp [hbefore k hk h1 h2])
        (Or.inr ⟨hj, by simp [hqj]⟩)
    rw [lexAux]
    rw [dif_pos hi]
    simp only [hq]
    rw [if_neg (by decide), if_neg (by decide), if_neg (by decide),
      if_pos (by decide)]
    rw [hscan]
    rw [dif_pos hj]

theorem c7_witness :
    (∀ k (hk : k < (['"', 'a', 'b'] : List Char).length), 0 + 1 ≤ k →
        (['"', 'a', 'b'] : List Char)[k] ≠ '"')
    ∧ lexAux ['"', 'a', 'b'] 0 = .error "Unterminated string literal" :=
  ⟨by decide, (c7_unterminated_string ['"', 'a', 'b'] 0 (by decide) rfl).1 (by decide)⟩

/-- C9 (amended): a maximal identifier/keyword run (letters, digits and
underscores after an identifier start, ending at the first position `j`
that is out of input or fails `identCont`) is looked up in the keyword
table `keywordLookup`, which maps exactly `let`, `int`, `bool`, `string`,
`print`, `true` and `false` to non-identifier tokens; every other run —
including `if`, `else`, `while`, `for`, `fn`, `return`, `end`, `float` and
`list` — yields an identifier token carrying the run's text. -/
theorem c9_keyword_table :
    (∀ (cs : List Char) (i j : Nat) (hi : i < cs.length),
      identStart cs[i] = true → i + 1 ≤ j →
      (∀ k (hk : k < cs.length), i + 1 ≤ k → k < j → identCont cs[k] = true) →
      (j = cs.length ∨ ∃ hj : j < cs.length, identCont cs[j] = false) →
      lexAux cs i = (lexAux cs j).map (fun ts => keywordLookup (sliceStr cs i j) :: ts))
    ∧ keywordLookup "let" = .Let ∧ keywordLookup "int" = .TypeNumber
    ∧ keywordLookup "bool" = .TypeBool ∧ keywordLookup "string" = .TypeString
    ∧ keywordLookup "print" = .Print ∧ keywordLookup "true" = .Boolean true
    ∧ keywordLookup "false" = .Boolean false
    ∧ (∀ s : String,
        s ∉ (["let", "int", "bool", "string", "print", "true", "false"] : List String) →
        keywordLookup s = .Identifier s) := by
  refine ⟨?_, rfl, rfl, rfl, rfl, rfl, rfl, rfl, ?_⟩
  · intro cs i j hi hs hij hall hstop
    have hscan : scanEnd identCont cs (i + 1) = j :=
      scanEnd_eq_of _ cs (i + 1) j hij (fun k hk h1 h2 => hall k hk h1 h2) hstop
    rw [lexAux]
    rw [dif_pos hi]
    simp only [identStart_not_ws _ hs, hs, Bool.false_eq_true, if_false, if_true]
    rw [hscan]
  · intro s hs
    unfold keywordLookup
    split
    · simp at hs
    · simp at hs
    · simp at hs
    · simp at hs
    · simp at hs
    · simp at hs
    · simp at hs
    · rfl

theorem c9_counterexample :
    lexer "while" = .ok [Token.Identifier "while"]
    ∧ lexer "if" = .ok [Token.Identifier "if"]
    ∧ lexer "else" = .ok [Token.Identifier "else"]
    ∧ lexer "for" = .ok [Token.Identifier "for"]
    ∧ lexer "fn" = .ok [Token.Identifier "fn"]
    ∧ lexer "return" = .ok [Token.Identifier "return"]
    ∧ lexer "float" = .ok [Token.Identifier "float"]
    ∧ lexer "list" = .ok [Token.Identifier "list"]
    ∧ lexer "end" = .ok [Token.Identifier "end"]
    ∧ lexer "let" = .ok [Token.Let] := by
  refine ⟨?_, ?_, ?_, ?_, ?_, ?_, ?_, ?_, ?_, ?_⟩ <;>
    simp +decide [lexer, lexAux, scanEnd, sliceStr, keywordLookup, identStart,
      identCont, String.toList, List.asString, Except.map]

theorem c9_witness :
    lexAux "let".toList 0 =
      (lexAux "let".toList 3).map
        (fun ts => keywordLookup (sliceStr "let".toList 0 3) :: ts) :=
  c9_keyword_table.1 "let".toList 0 3 (by decide) (by decide) (by decide)
    (by decide) (Or.inl (by decide))

/-- C10: a successful lex never contains an end-of-input token and emits
nothing for whitespace: lexing the empty string gives the empty token list,
lexing pure whitespace gives the empty token list, and `Token.EOF` is
absent from every successfully returned token sequence (the lexer pushes
`EOF` only on the error path, whose vector is discarded). -/
theorem c10_no_eof_no_whitespace :
    lexer "" = .ok []
    ∧ (∀ s : String, (∀ c ∈ s.toList, c.isWhitespace = true) → lexer s = .ok [])
    ∧ (∀ (cs : List Char) (i : Nat) (toks : List Token),
        lexAux cs i = .ok toks → Token.EOF ∉ toks) := by
  refine ⟨?_, ?_, ?_⟩
  · rw [lexer]
    rw [lexAux]
    simp
  · intro s hws
    exact lexAux_ws_only s.toList.length s.toList 0 (by omega)
      (fun k hk h1 => hws _ (s.toList.getElem_mem hk))
  · intro cs i toks h
    exact lexAux_no_eof (cs.length - i) cs i toks le_rfl h

theorem c10_witness :
    lexer "  " = .ok [] ∧ Token.EOF ∉ ([] : List Token) :=
  ⟨c10_no_eof_no_whitespace.2.1 "  " (by decide),
    c10_no_eof_no_whitespace.2.2 [] 0 [] (by rw [lexAux]; simp)⟩

end Lex

namespace Parse

@[simp] theorem PRes.bind_ok {α β : Type} (a : α) (f : α → PRes β) :
    PRes.bind (.ok a) f = f a := rfl

@[simp] theorem PRes.bind_error {α β : Type} (e : PError) (f : α → PRes β) :
    PRes.bind (.error e) f = .error e := rfl

@[simp] theorem PRes.bind_fuelOut {α β : Type} (f : α → PRes β) :
    PRes.bind .fuelOut f = .fuelOut := rfl

theorem eat_scopes {t : Token} {s s' : PState} (h : eat t s = .ok s') :
    s'.scopes = s.scopes := by
  unfold eat at h
  split at h
  · split at h
    · cases h; rfl
    · cases h
  · cases h

theorem liftE_ok_iff {α : Type} {x : Except PError α} {a : α} :
    liftE x = .ok a ↔ x = .ok a := by
  cases x <;> simp [liftE]

theorem PRes.bind_ok_iff {α β : Type} {r : PRes α} {f : α → PRes β} {b : β} :
    r.bind f = .ok b ↔ ∃ a, r = .ok a ∧ f a = .ok b := by
  cases r <;> simp [PRes.bind]

theorem checkTypeList_eq_all (t : Token) :
    ∀ es : List Token, checkTypeList t es = es.all (fun e => checkTypeCompatibility t e) := by
  intro es
  induction es with
  | nil => rfl
  | cons e es ih => rw [checkTypeList, List.all_cons, ih]

theorem getElem_opt_eq_head_drop {α : Type} (T : List α) :
    ∀ p : Nat, T[p]? = (T.drop p).head? := by
  induction T with
  | nil => intro p; simp
  | cons x xs ih =>
    intro p
    cases p with
    | zero => simp
    | succ q => simpa using ih q

theorem drop_succ_of_drop {α : Type} {T : List α} {p : Nat} {x : α}
    {rest : List α} (hd : T.drop p = x :: rest) : T.drop (p + 1) = rest := by
  have h1 : T.drop (p + 1) = (T.drop p).drop 1 := by
    rw [List.drop_drop]
  rw [h1, hd]
  rfl

theorem getElem_opt_of_drop {α : Type} {T : List α} {p : Nat} {x : α}
    {rest : List α} (hd : T.drop p = x :: rest) : T[p]? = some x := by
  rw [getElem_opt_eq_head_drop, hd]
  rfl

theorem getElem_opt_none_of_drop {α : Type} {T : List α} {p : Nat}
    (hd : T.drop p = []) : T[p]? = none := by
  rw [getElem_opt_eq_head_drop, hd]
  rfl

theorem mulChainToks_length : ∀ ps : MulChain, (mulChainToks ps).length = 2 * ps.length := by
  intro ps
  induction ps with
  | nil => rfl
  | cons q ps ih =>
    obtain ⟨b, m⟩ := q
    simp only [mulChainToks, List.length_cons, ih]
    omega

theorem termToks_length (m0 : Int) (ps : MulChain) :
    (termToks (m0, ps)).length = 2 * ps.length + 1 := by
  simp only [termToks, List.length_cons, mulChainToks_length]

theorem drop_append_of_drop {α : Type} :
    ∀ (a : List α) (T : List α) (p : Nat) (b : List α),
      T.drop p = a ++ b → T.drop (p + a.length) = b := by
  intro a
  induction a with
  | nil => intro T p b h; simpa using h
  | cons x a ih =>
    intro T p b h
    simp only [List.cons_append] at h
    have h1 := drop_succ_of_drop h
    have h2 := ih T (p + 1) b h1
    have : p + (x :: a).length = p + 1 + a.length := by
      simp [List.length_cons]
      omega
    rw [this]
    exact h2

theorem sumChainToks_addTail (rest : SumChain) : addTail (sumChainToks rest) := by
  cases rest with
  | nil => exact Or.inl rfl
  | cons q rest =>
    exact Or.inr ⟨q.1, termToks q.2 ++ sumChainToks rest, by
      cases q; rfl⟩

theorem parseFactor_int (fuel : Nat) (T : List Token) (p : Nat)
    (sc : List Scope) (m : Int) (hf : 1 ≤ fuel)
    (hT : T[p]? = some (.Integer m)) :
    parseFactor fuel (PState.mk T p sc) =
      .ok (.Literal (.Int m), PState.mk T (p + 1) sc) := by
  cases fuel with
  | zero => omega
  | succ f =>
    have hcur : currentToken (PState.mk T p sc) = some (Token.Integer m) := hT
    simp [parseFactor, hcur, tokenToLiteral]

theorem parseTermLoop_chain :
    ∀ (ps : MulChain) (fuel : Nat) (T : List Token) (p : Nat) (sc : List Scope)
      (left : Expr) (tail : List Token),
      2 * ps.length + 1 ≤ fuel →
      T.drop p = mulChainToks ps ++ tail →
      addTail tail →
      parseTermLoop fuel left (PState.mk T p sc) =
        .ok (ps.foldl (fun acc q => .Binary acc (mulOpOf q.1) (.Literal (.Int q.2))) left,
          PState.mk T (p + 2 * ps.length) sc) := by
  intro ps
  induction ps with
  | nil =>
    intro fuel T p sc left tail hf hdrop htail
    cases fuel with
    | zero => omega
    | succ f =>
      simp only [mulChainToks, List.nil_append] at hdrop
      rcases htail with rfl | ⟨b, rest2, rfl⟩
      · have hcur : currentToken (PState.mk T p sc) = none :=
          getElem_opt_none_of_drop hdrop
        simp [parseTermLoop, hcur]
      · have hcur : currentToken (PState.mk T p sc) = some (addOpOf b) :=
          getElem_opt_of_drop hdrop
        cases b <;> simp_all [parseTermLoop, addOpOf]
  | cons q ps ih =>
    obtain ⟨b, m⟩ := q
    intro fuel T p sc left tail hf hdrop htail
    simp only [List.length_cons] at hf
    cases fuel with
    | zero => omega
    | succ f =>
      simp only [mulChainToks, List.cons_append] at hdrop
      have hcur : currentToken (PState.mk T p sc) = some (mulOpOf b) :=
        getElem_opt_of_drop hdrop
      have h1 : T.drop (p + 1) = Token.Integer m :: (mulChainToks ps ++ tail) :=
        drop_succ_of_drop hdrop
      have hInt : T[p + 1]? = some (Token.Integer m) := getElem_opt_of_drop h1
      have h2 : T.drop (p + 2) = mulChainToks ps ++ tail :=
        drop_succ_of_drop h1
      have hfac : parseFactor f (PState.mk T (p + 1) sc) =
          .ok (.Literal (.Int m), PState.mk T (p + 2) sc) :=
        parseFactor_int f T (p + 1) sc m (by omega) hInt
      have hrec := ih f T (p + 2) sc
        (.Binary left (mulOpOf b) (.Literal (.Int m)))
        tail (by omega) h2 htail
      have hpos : p + 2 + 2 * ps.length = p + 2 * ((b, m) :: ps).length := by
        simp only [List.length_cons]
        omega
      cases b
      · simp only [mulOpOf, if_false] at hcur hrec ⊢
        simp only [parseTermLoop, hcur]
        rw [hfac]
        simp only [PRes.bind_ok]
        rw [hrec, hpos]
        simp [mulOpOf, List.foldl_cons]
      · simp only [mulOpOf, if_true] at hcur hrec ⊢
        simp only [parseTermLoop, hcur]
        rw [hfac]
        simp only [PRes.bind_ok]
        rw [hrec, hpos]
        simp [mulOpOf, List.foldl_cons]

theorem parseTerm_chain (m0 : Int) (ps : MulChain) :
    ∀ (fuel : Nat) (T : List Token) (p : Nat) (sc : List Scope) (tail : List Token),
      2 * ps.length + 3 ≤ fuel →
      T.drop p = termToks (m0, ps) ++ tail →
      addTail tail →
      parseTerm fuel (PState.mk T p sc) =
        .ok (termTree (m0, ps), PState.mk T (p + (2 * ps.length + 1)) sc) := by
  intro fuel T p sc tail hf hdrop htail
  cases fuel with
  | zero => omega
  | succ f =>
    simp only [termToks, List.cons_append] at hdrop
    have hInt : T[p]? = some (Token.Integer m0) := getElem_opt_of_drop hdrop
    have h1 : T.drop (p + 1) = mulChainToks ps ++ tail := drop_succ_of_drop hdrop
    have hfac := parseFactor_int f T p sc m0 (by omega) hInt
    have hloop := parseTermLoop_chain ps f T (p + 1) sc (.Literal (.Int m0))
      tail (by omega) h1 htail
    simp only [parseTerm]
    rw [hfac]
    simp only [PRes.bind_ok]
    rw [hloop]
    have hpos : p + 1 + 2 * ps.length = p + (2 * ps.length + 1) := by omega
    rw [hpos]
    simp [termTree]

theorem parseExprLoop_chain :
    ∀ (rest : SumChain) (fuel : Nat) (T : List Token) (p : Nat) (sc : List Scope)
      (left : Expr),
      2 * (sumChainToks rest).length + 1 ≤ fuel →
      T.drop p = sumChainToks rest →
      parseExprLoop fuel left (PState.mk T p sc) =
        .ok (rest.foldl (fun acc q => .Binary acc (addOpOf q.1) (termTree q.2)) left,
          PState.mk T (p + (sumChainToks rest).length) sc) := by
  intro rest
  induction rest with
  | nil =>
    intro fuel T p sc left hf hdrop
    cases fuel with
    | zero => omega
    | succ f =>
      simp only [sumChainToks] at hdrop
      have hcur : currentToken (PState.mk T p sc) = none :=
        getElem_opt_none_of_drop hdrop
      simp [parseExprLoop, hcur, sumChainToks]
  | cons q rest ih =>
    obtain ⟨b, t⟩ := q
    obtain ⟨m0, ps⟩ := t
    intro fuel T p sc left hf hdrop
    simp only [sumChainToks, List.length_cons, List.length_append,
      termToks_length] at hf
    cases fuel with
    | zero => omega
    | succ f =>
      simp only [sumChainToks] at hdrop
      have hcur : currentToken (PState.mk T p sc) = some (addOpOf b) :=
        getElem_opt_of_drop hdrop
      have h1 : T.drop (p + 1) = termToks (m0, ps) ++ sumChainToks rest :=
        drop_succ_of_drop hdrop
      have hterm := parseTerm_chain m0 ps f T (p + 1) sc (sumChainToks rest)
        (by omega) h1 (sumChainToks_addTail rest)
      have h2 : T.drop (p + 1 + (2 * ps.length + 1)) = sumChainToks rest := by
        have h3 := drop_append_of_drop (termToks (m0, ps)) T (p + 1)
          (sumChainToks rest) h1
        rw [termToks_length] at h3
        exact h3
      have hrec := ih f T (p + 1 + (2 * ps.length + 1)) sc
        (.Binary left (addOpOf b) (termTree (m0, ps))) (by omega) h2
      have hpos : p + 1 + (2 * ps.length + 1) + (sumChainToks rest).length =
          p + (addOpOf b :: (termToks (m0, ps) ++ sumChainToks rest)).length := by
        simp only [List.length_cons, List.length_append, termToks_length]
        omega
      cases b
      · simp only [addOpOf, if_false] at hcur hterm hrec hpos ⊢
        simp only [parseExprLoop, hcur]
        rw [hterm]
        simp only [PRes.bind_ok]
        rw [hrec, hpos]
        simp [addOpOf, List.foldl_cons, sumChainToks, termToks_length,
          List.length_cons, List.length_append] <;> omega
      · simp only [addOpOf, if_true] at hcur hterm hrec hpos ⊢
        simp only [parseExprLoop, hcur]
        rw [hterm]
        simp only [PRes.bind_ok]
        rw [hrec, hpos]
        simp [addOpOf, List.foldl_cons, sumChainToks, termToks_length,
          List.length_cons, List.length_append] <;> omega

theorem parseExpr_chain (t0 : TermChain) (rest : SumChain) :
    ∀ (fuel : Nat) (sc : List Scope),
      2 * (sumToks t0 rest).length + 4 ≤ fuel →
      parseExpr fuel (PState.mk (sumToks t0 rest) 0 sc) =
        .ok (sumTree t0 rest,
          PState.mk (sumToks t0 rest) (sumToks t0 rest).length sc) := by
  obtain ⟨m0, ps⟩ := t0
  intro fuel sc hf
  have hlen : (sumToks (m0, ps) rest).length =
      (2 * ps.length + 1) + (sumChainToks rest).length := by
    simp only [sumToks, List.length_append, termToks_length]
  cases fuel with
  | zero => omega
  | succ f =>
    have hdrop0 : (sumToks (m0, ps) rest).drop 0 =
        termToks (m0, ps) ++ sumChainToks rest := by
      simp [sumToks]
    have hterm := parseTerm_chain m0 ps f (sumToks (m0, ps) rest) 0 sc
      (sumChainToks rest) (by omega) hdrop0 (sumChainToks_addTail rest)
    have h2 : (sumToks (m0, ps) rest).drop (0 + (2 * ps.length + 1)) =
        sumChainToks rest := by
      have h3 := drop_append_of_drop (termToks (m0, ps)) (sumToks (m0, ps) rest)
        0 (sumChainToks rest) hdrop0
      rw [termToks_length] at h3
      exact h3
    have hloop := parseExprLoop_chain rest f (sumToks (m0, ps) rest)
      (0 + (2 * ps.length + 1)) sc (termTree (m0, ps)) (by omega) h2
    simp only [parseExpr]
    rw [hterm]
    simp only [PRes.bind_ok]
    rw [hloop]
    have hpos : 0 + (2 * ps.length + 1) + (sumChainToks rest).length =
        (sumToks (m0, ps) rest).length := by omega
    rw [hpos]
    simp [sumTree]


/-- No parsing routine modifies the scope stack: every production of
`src/parser.rs` leaves `self.scopes` exactly as it found it (none of them
mentions `self.scopes`; only `define_variable` / `assign_variable` /
`get_variable` do). -/
theorem scopes_invariant :
    ∀ n : Nat,
      (∀ s t s', parseType n s = .ok (t, s') → s'.scopes = s.scopes)
      ∧ (∀ s e s', parseExpr n s = .ok (e, s') → s'.scopes = s.scopes)
      ∧ (∀ left s e s', parseExprLoop n left s = .ok (e, s') → s'.scopes = s.scopes)
      ∧ (∀ s e s', parseTerm n s = .ok (e, s') → s'.scopes = s.scopes)
      ∧ (∀ left s e s', parseTermLoop n left s = .ok (e, s') → s'.scopes = s.scopes)
      ∧ (∀ s e s', parseFactor n s = .ok (e, s') → s'.scopes = s.scopes)
      ∧ (∀ s es s', parseFactorListLoop n s = .ok (es, s') → s'.scopes = s.scopes)
      ∧ (∀ name s e s', parseCallExpr n name s = .ok (e, s') → s'.scopes = s.scopes)
      ∧ (∀ s es s', parseCallArgsLoop n s = .ok (es, s') → s'.scopes = s.scopes)
      ∧ (∀ cur s e s', parseListIndexLoop n cur s = .ok (e, s') → s'.scopes = s.scopes)
      ∧ (∀ name s e s', parseMethodCall n name s = .ok (e, s') → s'.scopes = s.scopes)
      ∧ (∀ s es s', parseMethodArgsLoop n s = .ok (es, s') → s'.scopes = s.scopes)
      ∧ (∀ s e s', parseComparison n s = .ok (e, s') → s'.scopes = s.scopes)
      ∧ (∀ left s e s', parseLogicAndLoop n left s = .ok (e, s') → s'.scopes = s.scopes)
      ∧ (∀ s e s', parseLogicAnd n s = .ok (e, s') → s'.scopes = s.scopes)
      ∧ (∀ left s e s', parseLogicOrLoop n left s = .ok (e, s') → s'.scopes = s.scopes)
      ∧ (∀ s e s', parseLogicOr n s = .ok (e, s') → s'.scopes = s.scopes)
      ∧ (∀ s st s', parseLet n s = .ok (st, s') → s'.scopes = s.scopes)
      ∧ (∀ s st s', parsePrint n s = .ok (st, s') → s'.scopes = s.scopes)
      ∧ (∀ s st s', parseReturn n s = .ok (st, s') → s'.scopes = s.scopes)
      ∧ (∀ s ps s', parseFnParamsLoop n s = .ok (ps, s') → s'.scopes = s.scopes)
      ∧ (∀ s es s', parseStatementIndicesLoop n s = .ok (es, s') → s'.scopes = s.scopes)
      ∧ (∀ s sts s', parseBlock n s = .ok (sts, s') → s'.scopes = s.scopes)
      ∧ (∀ s st s', parseIf n s = .ok (st, s') → s'.scopes = s.scopes)
      ∧ (∀ s st s', parseWhile n s = .ok (st, s') → s'.scopes = s.scopes)
      ∧ (∀ s st s', parseFor n s = .ok (st, s') → s'.scopes = s.scopes)
      ∧ (∀ s st s', parseFn n s = .ok (st, s') → s'.scopes = s.scopes)
      ∧ (∀ s st s', parseStatement n s = .ok (st, s') → s'.scopes = s.scopes) := by
  intro n
  induction n with
  | zero =>
    refine ⟨?_, ?_, ?_, ?_, ?_, ?_, ?_, ?_, ?_, ?_, ?_, ?_, ?_, ?_, ?_, ?_,
      ?_, ?_, ?_, ?_, ?_, ?_, ?_, ?_, ?_, ?_, ?_, ?_⟩ <;> intros <;>
      simp_all [parseType, parseExpr, parseExprLoop, parseTerm, parseTermLoop,
        parseFactor, parseFactorListLoop, parseCallExpr, parseCallArgsLoop,
        parseListIndexLoop, parseMethodCall, parseMethodArgsLoop,
        parseComparison, parseLogicAndLoop, parseLogicAnd, parseLogicOrLoop,
        parseLogicOr, parseLet, parsePrint, parseReturn, parseFnParamsLoop,
        parseStatementIndicesLoop, parseBlock, parseIf, parseWhile, parseFor,
        parseFn, parseStatement]
  | succ n ih =>
    obtain ⟨ihType, ihExpr, ihExprLoop, ihTerm, ihTermLoop, ihFactor,
      ihFactorList, ihCallExpr, ihCallArgs, ihListIndex, ihMethodCall,
      ihMethodArgs, ihComparison, ihAndLoop, ihAnd, ihOrLoop, ihOr, ihLet,
      ihPrint, ihReturn, ihFnParams, ihStmtIndices, ihBlock, ihIf, ihWhile,
      ihFor, ihFn, ihStatement⟩ := ih
    have hType : ∀ s t s', parseType (n + 1) s = .ok (t, s') → s'.scopes = s.scopes := by
      intro s t s' h
      simp only [parseType] at h
      split at h <;> (try split at h) <;>
        first
        | (simp at h; done)
        | (simp only [PRes.ok.injEq, Prod.mk.injEq] at h
           obtain ⟨rfl, rfl⟩ := h
           rfl)
        | (simp only [PRes.bind_ok_iff, liftE_ok_iff, Prod.exists] at h
           obtain ⟨s1, h1, t1, s2, h2, s3, h3, hfin⟩ := h
           simp only [PRes.ok.injEq, Prod.mk.injEq] at hfin
           obtain ⟨rfl, rfl⟩ := hfin
           rw [eat_scopes h3, ihType _ _ _ h2, eat_scopes h1]
           done)
    have hExpr : ∀ s e s', parseExpr (n + 1) s = .ok (e, s') → s'.scopes = s.scopes := by
      intro s e s' h
      simp only [parseExpr, PRes.bind_ok_iff, Prod.exists] at h
      obtain ⟨e1, s1, h1, h⟩ := h
      rw [ihExprLoop _ _ _ _ h, ihTerm _ _ _ h1]
    have hExprLoop : ∀ left s e s', parseExprLoop (n + 1) left s = .ok (e, s') →
        s'.scopes = s.scopes := by
      intro left s e s' h
      simp only [parseExprLoop] at h
      split at h <;> (try split at h) <;>
        first
        | (simp only [PRes.ok.injEq, Prod.mk.injEq] at h
           obtain ⟨rfl, rfl⟩ := h
           rfl)
        | (simp only [PRes.bind_ok_iff, Prod.exists] at h
           obtain ⟨r1, s1, h1, h⟩ := h
           rw [ihExprLoop _ _ _ _ h, ihTerm _ _ _ h1]
           done)
    have hTerm : ∀ s e s', parseTerm (n + 1) s = .ok (e, s') → s'.scopes = s.scopes := by
      intro s e s' h
      simp only [parseTerm, PRes.bind_ok_iff, Prod.exists] at h
      obtain ⟨e1, s1, h1, h⟩ := h
      rw [ihTermLoop _ _ _ _ h, ihFactor _ _ _ h1]
    have hTermLoop : ∀ left s e s', parseTermLoop (n + 1) left s = .ok (e, s') →
        s'.scopes = s.scopes := by
      intro left s e s' h
      simp only [parseTermLoop] at h
      split at h <;> (try split at h) <;>
        first
        | (simp only [PRes.ok.injEq, Prod.mk.injEq] at h
           obtain ⟨rfl, rfl⟩ := h
           rfl)
        | (simp only [PRes.bind_ok_iff, Prod.exists] at h
           obtain ⟨r1, s1, h1, h⟩ := h
           rw [ihTermLoop _ _ _ _ h, ihFactor _ _ _ h1]
           done)
    have hFactor : ∀ s e s', parseFactor (n + 1) s = .ok (e, s') → s'.scopes = s.scopes := by
      intro s e s' h
      simp only [parseFactor] at h
      split at h <;> (try split at h) <;>
        first
        | (simp at h; done)
        | (simp only [PRes.ok.injEq, Prod.mk.injEq] at h
           obtain ⟨rfl, rfl⟩ := h
           rfl)
        | -- identifier: call / list index / method call / variable
          (split at h
           · rw [ihCallExpr _ _ _ _ h]
           · split at h
             · rw [ihListIndex _ _ _ _ h]
             · split at h
               · rw [ihMethodCall _ _ _ _ h]
               · simp only [PRes.ok.injEq, Prod.mk.injEq] at h
                 obtain ⟨rfl, rfl⟩ := h
                 rfl)
        | -- parenthesized grouping
          (simp only [PRes.bind_ok_iff, liftE_ok_iff, Prod.exists] at h
           obtain ⟨s1, h1, e1, s2, h2, s3, h3, hfin⟩ := h
           simp only [PRes.ok.injEq, Prod.mk.injEq] at hfin
           obtain ⟨rfl, rfl⟩ := hfin
           rw [eat_scopes h3, ihExpr _ _ _ h2, eat_scopes h1]
           done)
        | -- list literal
          (simp only [PRes.bind_ok_iff, liftE_ok_iff, Prod.exists] at h
           obtain ⟨s1, h1, h⟩ := h
           split at h
           · simp only [PRes.bind_ok_iff, liftE_ok_iff, Prod.exists] at h
             obtain ⟨s2, h2, hfin⟩ := h
             simp only [PRes.ok.injEq, Prod.mk.injEq] at hfin
             obtain ⟨rfl, rfl⟩ := hfin
             rw [eat_scopes h2, eat_scopes h1]
           · simp only [PRes.bind_ok_iff, liftE_ok_iff, Prod.exists] at h
             obtain ⟨es1, s2, h2, s3, h3, hfin⟩ := h
             simp only [PRes.ok.injEq, Prod.mk.injEq] at hfin
             obtain ⟨rfl, rfl⟩ := hfin
             rw [eat_scopes h3, ihFactorList _ _ _ h2, eat_scopes h1]
             done)
        | -- unary minus
          (simp only [PRes.bind_ok_iff, liftE_ok_iff, Prod.exists] at h
           obtain ⟨s1, h1, e1, s2, h2, hfin⟩ := h
           simp only [PRes.ok.injEq, Prod.mk.injEq] at hfin
           obtain ⟨rfl, rfl⟩ := hfin
           rw [ihFactor _ _ _ h2, eat_scopes h1]
           done)
    have hFactorList : ∀ s es s', parseFactorListLoop (n + 1) s = .ok (es, s') →
        s'.scopes = s.scopes := by
      intro s es s' h
      simp only [parseFactorListLoop, PRes.bind_ok_iff, Prod.exists] at h
      obtain ⟨e1, s1, h1, h⟩ := h
      split at h
      · simp only [PRes.bind_ok_iff, liftE_ok_iff, Prod.exists] at h
        obtain ⟨s2, h2, es2, s3, h3, hfin⟩ := h
        simp only [PRes.ok.injEq, Prod.mk.injEq] at hfin
        obtain ⟨rfl, rfl⟩ := hfin
        rw [ihFactorList _ _ _ h3, eat_scopes h2, ihExpr _ _ _ h1]
      · simp only [PRes.ok.injEq, Prod.mk.injEq] at h
        obtain ⟨rfl, rfl⟩ := h
        rw [ihExpr _ _ _ h1]
    have hCallExpr : ∀ name s e s', parseCallExpr (n + 1) name s = .ok (e, s') →
        s'.scopes = s.scopes := by
      intro name s e s' h
      simp only [parseCallExpr, PRes.bind_ok_iff, liftE_ok_iff, Prod.exists] at h
      obtain ⟨s1, h1, h⟩ := h
      split at h
      · simp only [PRes.bind_ok_iff, liftE_ok_iff, Prod.exists] at h
        obtain ⟨es1, s2, h2, s3, h3, hfin⟩ := h
        simp only [PRes.ok.injEq, Prod.mk.injEq] at hfin
        obtain ⟨rfl, rfl⟩ := hfin
        rw [eat_scopes h3, ihCallArgs _ _ _ h2, eat_scopes h1]
      · simp only [PRes.bind_ok_iff, liftE_ok_iff, Prod.exists] at h
        obtain ⟨s3, h3, hfin⟩ := h
        simp only [PRes.ok.injEq, Prod.mk.injEq] at hfin
        obtain ⟨rfl, rfl⟩ := hfin
        rw [eat_scopes h3, eat_scopes h1]
    have hCallArgs : ∀ s es s', parseCallArgsLoop (n + 1) s = .ok (es, s') →
        s'.scopes = s.scopes := by
      intro s es s' h
      simp only [parseCallArgsLoop, PRes.bind_ok_iff, Prod.exists] at h
      obtain ⟨e1, s1, h1, h⟩ := h
      split at h
      · simp only [PRes.bind_ok_iff, Prod.exists] at h
        obtain ⟨es2, s2, h2, hfin⟩ := h
        simp only [PRes.ok.injEq, Prod.mk.injEq] at hfin
        obtain ⟨rfl, rfl⟩ := hfin
        rw [ihCallArgs _ _ _ h2, ihExpr _ _ _ h1]
      · simp only [PRes.ok.injEq, Prod.mk.injEq] at h
        obtain ⟨rfl, rfl⟩ := h
        rw [ihExpr _ _ _ h1]
    have hListIndex : ∀ cur s e s', parseListIndexLoop (n + 1) cur s = .ok (e, s') →
        s'.scopes = s.scopes := by
      intro cur s e s' h
      simp only [parseListIndexLoop] at h
      split at h
      · simp only [PRes.bind_ok_iff, liftE_ok_iff, Prod.exists] at h
        obtain ⟨s1, h1, e1, s2, h2, s3, h3, h⟩ := h
        rw [ihListIndex _ _ _ _ h, eat_scopes h3, ihExpr _ _ _ h2, eat_scopes h1]
      · simp only [PRes.ok.injEq, Prod.mk.injEq] at h
        obtain ⟨rfl, rfl⟩ := h
        rfl
    have hMethodCall : ∀ name s e s', parseMethodCall (n + 1) name s = .ok (e, s') →
        s'.scopes = s.scopes := by
      intro name s e s' h
      simp only [parseMethodCall, PRes.bind_ok_iff, liftE_ok_iff, Prod.exists] at h
      obtain ⟨s1, h1, h⟩ := h
      split at h
      · simp only [PRes.bind_ok_iff, liftE_ok_iff, Prod.exists] at h
        obtain ⟨s2, h2, h⟩ := h
        split at h
        · simp only [PRes.bind_ok_iff, liftE_ok_iff, Prod.exists] at h
          obtain ⟨s3, h3, hfin⟩ := h
          simp only [PRes.ok.injEq, Prod.mk.injEq] at hfin
          obtain ⟨rfl, rfl⟩ := hfin
          rw [eat_scopes h3, eat_scopes h2, eat_scopes h1]
        · simp only [PRes.bind_ok_iff, liftE_ok_iff, Prod.exists] at h
          obtain ⟨as1, s3, h3, s4, h4, hfin⟩ := h
          simp only [PRes.ok.injEq, Prod.mk.injEq] at hfin
          obtain ⟨rfl, rfl⟩ := hfin
          rw [eat_scopes h4, ihMethodArgs _ _ _ h3, eat_scopes h2, eat_scopes h1]
      · simp at h
    have hMethodArgs : ∀ s es s', parseMethodArgsLoop (n + 1) s = .ok (es, s') →
        s'.scopes = s.scopes := by
      intro s es s' h
      simp only [parseMethodArgsLoop, PRes.bind_ok_iff, Prod.exists] at h
      obtain ⟨e1, s1, h1, h⟩ := h
      split at h
      · simp only [PRes.bind_ok_iff, liftE_ok_iff, Prod.exists] at h
        obtain ⟨s2, h2, es2, s3, h3, hfin⟩ := h
        simp only [PRes.ok.injEq, Prod.mk.injEq] at hfin
        obtain ⟨rfl, rfl⟩ := hfin
        rw [ihMethodArgs _ _ _ h3, eat_scopes h2, ihExpr _ _ _ h1]
      · simp only [PRes.ok.injEq, Prod.mk.injEq] at h
        obtain ⟨rfl, rfl⟩ := h
        rw [ihExpr _ _ _ h1]
    have hComparison : ∀ s e s', parseComparison (n + 1) s = .ok (e, s') →
        s'.scopes = s.scopes := by
      intro s e s' h
      simp only [parseComparison, PRes.bind_ok_iff, Prod.exists] at h
      obtain ⟨e1, s1, h1, h⟩ := h
      split at h <;> (try split at h) <;>
        first
        | (simp only [PRes.ok.injEq, Prod.mk.injEq] at h
           obtain ⟨rfl, rfl⟩ := h
           rw [ihExpr _ _ _ h1]
           done)
        | (simp only [PRes.bind_ok_iff, Prod.exists] at h
           obtain ⟨e2, s2, h2, hfin⟩ := h
           simp only [PRes.ok.injEq, Prod.mk.injEq] at hfin
           obtain ⟨rfl, rfl⟩ := hfin
           rw [ihExpr _ _ _ h2, ihExpr _ _ _ h1]
           done)
    have hAndLoop : ∀ left s e s', parseLogicAndLoop (n + 1) left s = .ok (e, s') →
        s'.scopes = s.scopes := by
      intro left s e s' h
      simp only [parseLogicAndLoop] at h
      split at h
      · split at h
        · simp only [PRes.bind_ok_iff, Prod.exists] at h
          obtain ⟨r1, s1, h1, h⟩ := h
          rw [ihAndLoop _ _ _ _ h, ihComparison _ _ _ h1]
        · simp only [PRes.ok.injEq, Prod.mk.injEq] at h
          obtain ⟨rfl, rfl⟩ := h
          rfl
      · simp only [PRes.ok.injEq, Prod.mk.injEq] at h
        obtain ⟨rfl, rfl⟩ := h
        rfl
    have hAnd : ∀ s e s', parseLogicAnd (n + 1) s = .ok (e, s') → s'.scopes = s.scopes := by
      intro s e s' h
      simp only [parseLogicAnd, PRes.bind_ok_iff, Prod.exists] at h
      obtain ⟨e1, s1, h1, h⟩ := h
      rw [ihAndLoop _ _ _ _ h, ihComparison _ _ _ h1]
    have hOrLoop : ∀ left s e s', parseLogicOrLoop (n + 1) left s = .ok (e, s') →
        s'.scopes = s.scopes := by
      intro left s e s' h
      simp only [parseLogicOrLoop] at h
      split at h
      · split at h
        · simp only [PRes.bind_ok_iff, Prod.exists] at h
          obtain ⟨r1, s1, h1, h⟩ := h
          rw [ihOrLoop _ _ _ _ h, ihAnd _ _ _ h1]
        · simp only [PRes.ok.injEq, Prod.mk.injEq] at h
          obtain ⟨rfl, rfl⟩ := h
          rfl
      · simp only [PRes.ok.injEq, Prod.mk.injEq] at h
        obtain ⟨rfl, rfl⟩ := h
        rfl
    have hOr : ∀ s e s', parseLogicOr (n + 1) s = .ok (e, s') → s'.scopes = s.scopes := by
      intro s e s' h
      simp only [parseLogicOr, PRes.bind_ok_iff, Prod.exists] at h
      obtain ⟨e1, s1, h1, h⟩ := h
      rw [ihOrLoop _ _ _ _ h, ihAnd _ _ _ h1]
    have hLet : ∀ s st s', parseLet (n + 1) s = .ok (st, s') → s'.scopes = s.scopes := by
      intro s st s' h
      simp only [parseLet, PRes.bind_ok_iff, liftE_ok_iff, Prod.exists] at h
      obtain ⟨s1, h1, h⟩ := h
      split at h
      · simp only [PRes.bind_ok_iff, liftE_ok_iff, Prod.exists] at h
        obtain ⟨s2, h2, t1, s3, h3, s4, h4, e1, s5, h5, hfin⟩ := h
        simp only [PRes.ok.injEq, Prod.mk.injEq] at hfin
        obtain ⟨rfl, rfl⟩ := hfin
        rw [ihExpr _ _ _ h5, eat_scopes h4, ihType _ _ _ h3, eat_scopes h2,
          eat_scopes h1]
      · simp at h
    have hPrint : ∀ s st s', parsePrint (n + 1) s = .ok (st, s') → s'.scopes = s.scopes := by
      intro s st s' h
      simp only [parsePrint, PRes.bind_ok_iff, liftE_ok_iff, Prod.exists] at h
      obtain ⟨s1, h1, e1, s2, h2, hfin⟩ := h
      simp only [PRes.ok.injEq, Prod.mk.injEq] at hfin
      obtain ⟨rfl, rfl⟩ := hfin
      rw [ihExpr _ _ _ h2, eat_scopes h1]
    have hReturn : ∀ s st s', parseReturn (n + 1) s = .ok (st, s') → s'.scopes = s.scopes := by
      intro s st s' h
      simp only [parseReturn, PRes.bind_ok_iff, liftE_ok_iff, Prod.exists] at h
      obtain ⟨s1, h1, h⟩ := h
      split at h
      · simp only [PRes.bind_ok_iff, Prod.exists] at h
        obtain ⟨v1, s2, h2, hfin⟩ := h
        simp only [PRes.ok.injEq, Prod.mk.injEq] at hfin
        obtain ⟨rfl, rfl⟩ := hfin
        rw [ihExpr _ _ _ h2, eat_scopes h1]
      · simp only [PRes.ok.injEq, Prod.mk.injEq] at h
        obtain ⟨rfl, rfl⟩ := h
        rw [eat_scopes h1]
    have hFnParams : ∀ s ps s', parseFnParamsLoop (n + 1) s = .ok (ps, s') →
        s'.scopes = s.scopes := by
      intro s ps s' h
      simp only [parseFnParamsLoop] at h
      split at h
      · simp only [PRes.bind_ok_iff, liftE_ok_iff, Prod.exists] at h
        obtain ⟨s1, h1, t1, s2, h2, h⟩ := h
        split at h
        · simp only [PRes.bind_ok_iff, Prod.exists] at h
          obtain ⟨ps1, s3, h3, hfin⟩ := h
          simp only [PRes.ok.injEq, Prod.mk.injEq] at hfin
          obtain ⟨rfl, rfl⟩ := hfin
          rw [ihFnParams _ _ _ h3, ihType _ _ _ h2, eat_scopes h1]
        · simp only [PRes.ok.injEq, Prod.mk.injEq] at h
          obtain ⟨rfl, rfl⟩ := h
          rw [ihType _ _ _ h2, eat_scopes h1]
      · simp at h
    have hStmtIndices : ∀ s es s', parseStatementIndicesLoop (n + 1) s = .ok (es, s') →
        s'.scopes = s.scopes := by
      intro s es s' h
      simp only [parseStatementIndicesLoop] at h
      split at h
      · simp only [PRes.bind_ok_iff, liftE_ok_iff, Prod.exists] at h
        obtain ⟨s1, h1, e1, s2, h2, s3, h3, es4, s4, h4, hfin⟩ := h
        simp only [PRes.ok.injEq, Prod.mk.injEq] at hfin
        obtain ⟨rfl, rfl⟩ := hfin
        rw [ihStmtIndices _ _ _ h4, eat_scopes h3, ihExpr _ _ _ h2, eat_scopes h1]
      · simp only [PRes.ok.injEq, Prod.mk.injEq] at h
        obtain ⟨rfl, rfl⟩ := h
        rfl
    have hBlock : ∀ s sts s', parseBlock (n + 1) s = .ok (sts, s') →
        s'.scopes = s.scopes := by
      intro s sts s' h
      simp only [parseBlock] at h
      split at h <;> (try split at h) <;>
        first
        | (simp only [PRes.ok.injEq, Prod.mk.injEq] at h
           obtain ⟨rfl, rfl⟩ := h
           rfl)
        | (simp only [PRes.bind_ok_iff, Prod.exists] at h
           obtain ⟨st1, s1, h1, sts2, s2, h2, hfin⟩ := h
           simp only [PRes.ok.injEq, Prod.mk.injEq] at hfin
           obtain ⟨rfl, rfl⟩ := hfin
           rw [ihBlock _ _ _ h2, ihStatement _ _ _ h1]
           done)
    have hIf : ∀ s st s', parseIf (n + 1) s = .ok (st, s') → s'.scopes = s.scopes := by
      intro s st s' h
      simp only [parseIf, parseCondition, PRes.bind_ok_iff, liftE_ok_iff,
        Prod.exists] at h
      obtain ⟨s1, h1, c1, s2, h2, ts1, s3, h3, h⟩ := h
      split at h
      · simp only [PRes.bind_ok_iff, liftE_ok_iff, Prod.exists] at h
        obtain ⟨s4, h4, es1, s5, h5, s6, h6, hfin⟩ := h
        simp only [PRes.ok.injEq, Prod.mk.injEq] at hfin
        obtain ⟨rfl, rfl⟩ := hfin
        rw [eat_scopes h6, ihBlock _ _ _ h5, eat_scopes h4, ihBlock _ _ _ h3,
          ihOr _ _ _ h2, eat_scopes h1]
      · simp only [PRes.bind_ok_iff, liftE_ok_iff, Prod.exists] at h
        obtain ⟨s6, h6, hfin⟩ := h
        simp only [PRes.ok.injEq, Prod.mk.injEq] at hfin
        obtain ⟨rfl, rfl⟩ := hfin
        rw [eat_scopes h6, ihBlock _ _ _ h3, ihOr _ _ _ h2, eat_scopes h1]
    have hWhile : ∀ s st s', parseWhile (n + 1) s = .ok (st, s') → s'.scopes = s.scopes := by
      intro s st s' h
      simp only [parseWhile, parseCondition, PRes.bind_ok_iff, liftE_ok_iff,
        Prod.exists] at h
      obtain ⟨s1, h1, c1, s2, h2, bs1, s3, h3, s4, h4, hfin⟩ := h
      simp only [PRes.ok.injEq, Prod.mk.injEq] at hfin
      obtain ⟨rfl, rfl⟩ := hfin
      rw [eat_scopes h4, ihBlock _ _ _ h3, ihOr _ _ _ h2, eat_scopes h1]
    have hFor : ∀ s st s', parseFor (n + 1) s = .ok (st, s') → s'.scopes = s.scopes := by
      intro s st s' h
      simp only [parseFor, PRes.bind_ok_iff, liftE_ok_iff, Prod.exists] at h
      obtain ⟨s1, h1, h⟩ := h
      split at h
      · simp only [PRes.bind_ok_iff, liftE_ok_iff, Prod.exists] at h
        obtain ⟨s2, h2, h⟩ := h
        split at h
        · simp only [PRes.bind_ok_iff, liftE_ok_iff, Prod.exists] at h
          obtain ⟨s3, h3, sv, s4, h4, s5, h5, ev, s6, h6, bs1, s7, h7, hfin⟩ := h
          simp only [PRes.ok.injEq, Prod.mk.injEq] at hfin
          obtain ⟨rfl, rfl⟩ := hfin
          rw [ihBlock _ _ _ h7, ihExpr _ _ _ h6, eat_scopes h5, ihExpr _ _ _ h4,
            eat_scopes h3, eat_scopes h2, eat_scopes h1]
        · simp at h
      · simp at h
    have hFn : ∀ s st s', parseFn (n + 1) s = .ok (st, s') → s'.scopes = s.scopes := by
      intro s st s' h
      simp only [parseFn, PRes.bind_ok_iff, liftE_ok_iff, Prod.exists] at h
      obtain ⟨s1, h1, h⟩ := h
      split at h
      · simp only [PRes.bind_ok_iff, liftE_ok_iff, Prod.exists] at h
        obtain ⟨s2, h2, h⟩ := h
        split at h
        · simp only [PRes.bind_ok_iff, liftE_ok_iff, Prod.exists] at h
          obtain ⟨s3, h3, bd1, s4, h4, s5, h5, hfin⟩ := h
          simp only [PRes.ok.injEq, Prod.mk.injEq] at hfin
          obtain ⟨rfl, rfl⟩ := hfin
          rw [eat_scopes h5, ihBlock _ _ _ h4, eat_scopes h3, eat_scopes h2,
            eat_scopes h1]
        · simp only [PRes.bind_ok_iff, liftE_ok_iff, Prod.exists] at h
          obtain ⟨ps1, s3, h3, s4, h4, bd1, s5, h5, s6, h6, hfin⟩ := h
          simp only [PRes.ok.injEq, Prod.mk.injEq] at hfin
          obtain ⟨rfl, rfl⟩ := hfin
          rw [eat_scopes h6, ihBlock _ _ _ h5, eat_scopes h4,
            ihFnParams _ _ _ h3, eat_scopes h2, eat_scopes h1]
      · simp at h
    have hStatement : ∀ s st s', parseStatement (n + 1) s = .ok (st, s') →
        s'.scopes = s.scopes := by
      intro s st s' h
      simp only [parseStatement] at h
      split at h <;> (try split at h) <;>
        first
        | (simp at h; done)
        | exact ihLet _ _ _ h
        | exact ihPrint _ _ _ h
        | exact ihIf _ _ _ h
        | exact ihWhile _ _ _ h
        | exact ihFor _ _ _ h
        | exact ihFn _ _ _ h
        | exact ihReturn _ _ _ h
        | -- identifier statement
          (split at h
           · simp only [PRes.bind_ok_iff, liftE_ok_iff, Prod.exists] at h
             obtain ⟨s2, h2, v1, s3, h3, hfin⟩ := h
             simp only [PRes.ok.injEq, Prod.mk.injEq] at hfin
             obtain ⟨rfl, rfl⟩ := hfin
             rw [ihExpr _ _ _ h3, eat_scopes h2]
           · split at h
             · simp only [PRes.bind_ok_iff, liftE_ok_iff, Prod.exists] at h
               obtain ⟨ixs, s2, h2, h⟩ := h
               split at h
               · simp only [PRes.bind_ok_iff, liftE_ok_iff, Prod.exists] at h
                 obtain ⟨s3, h3, v1, s4, h4, hfin⟩ := h
                 simp only [PRes.ok.injEq, Prod.mk.injEq] at hfin
                 obtain ⟨rfl, rfl⟩ := hfin
                 rw [ihExpr _ _ _ h4, eat_scopes h3, ihStmtIndices _ _ _ h2]
               · simp only [PRes.ok.injEq, Prod.mk.injEq] at h
                 obtain ⟨rfl, rfl⟩ := h
                 rw [ihStmtIndices _ _ _ h2]
             · split at h
               · simp only [PRes.bind_ok_iff, Prod.exists] at h
                 obtain ⟨e1, s2, h2, hfin⟩ := h
                 simp only [PRes.ok.injEq, Prod.mk.injEq] at hfin
                 obtain ⟨rfl, rfl⟩ := hfin
                 rw [ihMethodCall _ _ _ _ h2]
               · split at h
                 · simp only [PRes.bind_ok_iff, Prod.exists] at h
                   obtain ⟨e1, s2, h2, hfin⟩ := h
                   simp only [PRes.ok.injEq, Prod.mk.injEq] at hfin
                   obtain ⟨rfl, rfl⟩ := hfin
                   rw [ihCallExpr _ _ _ _ h2]
                 · simp only [PRes.ok.injEq, Prod.mk.injEq] at h
                   obtain ⟨rfl, rfl⟩ := h
                   rfl)
    exact ⟨hType, hExpr, hExprLoop, hTerm, hTermLoop, hFactor, hFactorList,
      hCallExpr, hCallArgs, hListIndex, hMethodCall, hMethodArgs, hComparison,
      hAndLoop, hAnd, hOrLoop, hOr, hLet, hPrint, hReturn, hFnParams,
      hStmtIndices, hBlock, hIf, hWhile, hFor, hFn, hStatement⟩


/-- The additive/multiplicative expression levels never build a comparison
node: every expression produced by `parse_expr` and the levels below it
satisfies `noCmp`. -/
theorem noCmp_invariant :
    ∀ n : Nat,
      (∀ s e s', parseExpr n s = .ok (e, s') → noCmp e = true)
      ∧ (∀ left s e s', parseExprLoop n left s = .ok (e, s') →
          noCmp left = true → noCmp e = true)
      ∧ (∀ s e s', parseTerm n s = .ok (e, s') → noCmp e = true)
      ∧ (∀ left s e s', parseTermLoop n left s = .ok (e, s') →
          noCmp left = true → noCmp e = true)
      ∧ (∀ s e s', parseFactor n s = .ok (e, s') → noCmp e = true)
      ∧ (∀ s es s', parseFactorListLoop n s = .ok (es, s') → noCmpList es = true)
      ∧ (∀ name s e s', parseCallExpr n name s = .ok (e, s') → noCmp e = true)
      ∧ (∀ s es s', parseCallArgsLoop n s = .ok (es, s') → noCmpList es = true)
      ∧ (∀ cur s e s', parseListIndexLoop n cur s = .ok (e, s') →
          noCmp cur = true → noCmp e = true)
      ∧ (∀ name s e s', parseMethodCall n name s = .ok (e, s') → noCmp e = true)
      ∧ (∀ s es s', parseMethodArgsLoop n s = .ok (es, s') → noCmpList es = true) := by
  intro n
  induction n with
  | zero =>
    refine ⟨?_, ?_, ?_, ?_, ?_, ?_, ?_, ?_, ?_, ?_, ?_⟩ <;> intros <;>
      simp_all [parseExpr, parseExprLoop, parseTerm, parseTermLoop, parseFactor,
        parseFactorListLoop, parseCallExpr, parseCallArgsLoop,
        parseListIndexLoop, parseMethodCall, parseMethodArgsLoop]
  | succ n ih =>
    obtain ⟨ihExpr, ihExprLoop, ihTerm, ihTermLoop, ihFactor, ihFactorList,
      ihCallExpr, ihCallArgs, ihListIndex, ihMethodCall, ihMethodArgs⟩ := ih
    have hExpr : ∀ s e s', parseExpr (n + 1) s = .ok (e, s') → noCmp e = true := by
      intro s e s' h
      simp only [parseExpr, PRes.bind_ok_iff, Prod.exists] at h
      obtain ⟨e1, s1, h1, h⟩ := h
      exact ihExprLoop _ _ _ _ h (ihTerm _ _ _ h1)
    have hExprLoop : ∀ left s e s', parseExprLoop (n + 1) left s = .ok (e, s') →
        noCmp left = true → noCmp e = true := by
      intro left s e s' h hleft
      simp only [parseExprLoop] at h
      split at h <;> (try split at h) <;>
        first
        | (simp only [PRes.ok.injEq, Prod.mk.injEq] at h
           obtain ⟨rfl, rfl⟩ := h
           exact hleft)
        | (simp only [PRes.bind_ok_iff, Prod.exists] at h
           obtain ⟨r1, s1, h1, h⟩ := h
           refine ihExprLoop _ _ _ _ h ?_
           simp [noCmp, cmpOp, hleft, ihTerm _ _ _ h1]
           done)
    have hTerm : ∀ s e s', parseTerm (n + 1) s = .ok (e, s') → noCmp e = true := by
      intro s e s' h
      simp only [parseTerm, PRes.bind_ok_iff, Prod.exists] at h
      obtain ⟨e1, s1, h1, h⟩ := h
      exact ihTermLoop _ _ _ _ h (ihFactor _ _ _ h1)
    have hTermLoop : ∀ left s e s', parseTermLoop (n + 1) left s = .ok (e, s') →
        noCmp left = true → noCmp e = true := by
      intro left s e s' h hleft
      simp only [parseTermLoop] at h
      split at h <;> (try split at h) <;>
        first
        | (simp only [PRes.ok.injEq, Prod.mk.injEq] at h
           obtain ⟨rfl, rfl⟩ := h
           exact hleft)
        | (simp only [PRes.bind_ok_iff, Prod.exists] at h
           obtain ⟨r1, s1, h1, h⟩ := h
           refine ihTermLoop _ _ _ _ h ?_
           simp [noCmp, cmpOp, hleft, ihFactor _ _ _ h1]
           done)
    have hFactor : ∀ s e s', parseFactor (n + 1) s = .ok (e, s') → noCmp e = true := by
      intro s e s' h
      simp only [parseFactor] at h
      split at h <;> (try split at h) <;>
        first
        | (simp at h; done)
        | (simp only [PRes.ok.injEq, Prod.mk.injEq] at h
           obtain ⟨rfl, rfl⟩ := h
           simp [noCmp]
           done)
        | (split at h
           · exact ihCallExpr _ _ _ _ h
           · split at h
             · refine ihListIndex _ _ _ _ h ?_
               simp [noCmp]
             · split at h
               · exact ihMethodCall _ _ _ _ h
               · simp only [PRes.ok.injEq, Prod.mk.injEq] at h
                 obtain ⟨rfl, rfl⟩ := h
                 simp [noCmp])
        | (simp only [PRes.bind_ok_iff, liftE_ok_iff, Prod.exists] at h
           obtain ⟨s1, h1, e1, s2, h2, s3, h3, hfin⟩ := h
           simp only [PRes.ok.injEq, Prod.mk.injEq] at hfin
           obtain ⟨rfl, rfl⟩ := hfin
           simp [noCmp, ihExpr _ _ _ h2]
           done)
        | (simp only [PRes.bind_ok_iff, liftE_ok_iff, Prod.exists] at h
           obtain ⟨s1, h1, h⟩ := h
           split at h
           · simp only [PRes.bind_ok_iff, liftE_ok_iff, Prod.exists] at h
             obtain ⟨s2, h2, hfin⟩ := h
             simp only [PRes.ok.injEq, Prod.mk.injEq] at hfin
             obtain ⟨rfl, rfl⟩ := hfin
             simp [noCmp, noCmpList]
           · simp only [PRes.bind_ok_iff, liftE_ok_iff, Prod.exists] at h
             obtain ⟨es1, s2, h2, s3, h3, hfin⟩ := h
             simp only [PRes.ok.injEq, Prod.mk.injEq] at hfin
             obtain ⟨rfl, rfl⟩ := hfin
             simp [noCmp, ihFactorList _ _ _ h2]
             done)
        | (simp only [PRes.bind_ok_iff, liftE_ok_iff, Prod.exists] at h
           obtain ⟨s1, h1, e1, s2, h2, hfin⟩ := h
           simp only [PRes.ok.injEq, Prod.mk.injEq] at hfin
           obtain ⟨rfl, rfl⟩ := hfin
           simp [noCmp, ihFactor _ _ _ h2]
           done)
    have hFactorList : ∀ s es s', parseFactorListLoop (n + 1) s = .ok (es, s') →
        noCmpList es = true := by
      intro s es s' h
      simp only [parseFactorListLoop, PRes.bind_ok_iff, Prod.exists] at h
      obtain ⟨e1, s1, h1, h⟩ := h
      split at h
      · simp only [PRes.bind_ok_iff, liftE_ok_iff, Prod.exists] at h
        obtain ⟨s2, h2, es2, s3, h3, hfin⟩ := h
        simp only [PRes.ok.injEq, Prod.mk.injEq] at hfin
        obtain ⟨rfl, rfl⟩ := hfin
        simp [noCmpList, ihExpr _ _ _ h1, ihFactorList _ _ _ h3]
      · simp only [PRes.ok.injEq, Prod.mk.injEq] at h
        obtain ⟨rfl, rfl⟩ := h
        simp [noCmpList, ihExpr _ _ _ h1]
    have hCallExpr : ∀ name s e s', parseCallExpr (n + 1) name s = .ok (e, s') →
        noCmp e = true := by
      intro name s e s' h
      simp only [parseCallExpr, PRes.bind_ok_iff, liftE_ok_iff, Prod.exists] at h
      obtain ⟨s1, h1, h⟩ := h
      split at h
      · simp only [PRes.bind_ok_iff, liftE_ok_iff, Prod.exists] at h
        obtain ⟨es1, s2, h2, s3, h3, hfin⟩ := h
        simp only [PRes.ok.injEq, Prod.mk.injEq] at hfin
        obtain ⟨rfl, rfl⟩ := hfin
        simp [noCmp, ihCallArgs _ _ _ h2]
      · simp only [PRes.bind_ok_iff, liftE_ok_iff, Prod.exists] at h
        obtain ⟨s3, h3, hfin⟩ := h
        simp only [PRes.ok.injEq, Prod.mk.injEq] at hfin
        obtain ⟨rfl, rfl⟩ := hfin
        simp [noCmp, noCmpList]
    have hCallArgs : ∀ s es s', parseCallArgsLoop (n + 1) s = .ok (es, s') →
        noCmpList es = true := by
      intro s es s' h
      simp only [parseCallArgsLoop, PRes.bind_ok_iff, Prod.exists] at h
      obtain ⟨e1, s1, h1, h⟩ := h
      split at h
      · simp only [PRes.bind_ok_iff, Prod.exists] at h
        obtain ⟨es2, s2, h2, hfin⟩ := h
        simp only [PRes.ok.injEq, Prod.mk.injEq] at hfin
        obtain ⟨rfl, rfl⟩ := hfin
        simp [noCmpList, ihExpr _ _ _ h1, ihCallArgs _ _ _ h2]
      · simp only [PRes.ok.injEq, Prod.mk.injEq] at h
        obtain ⟨rfl, rfl⟩ := h
        simp [noCmpList, ihExpr _ _ _ h1]
    have hListIndex : ∀ cur s e s', parseListIndexLoop (n + 1) cur s = .ok (e, s') →
        noCmp cur = true → noCmp e = true := by
      intro cur s e s' h hcur
      simp only [parseListIndexLoop] at h
      split at h
      · simp only [PRes.bind_ok_iff, liftE_ok_iff, Prod.exists] at h
        obtain ⟨s1, h1, e1, s2, h2, s3, h3, h⟩ := h
        refine ihListIndex _ _ _ _ h ?_
        simp [noCmp, hcur, ihExpr _ _ _ h2]
      · simp only [PRes.ok.injEq, Prod.mk.injEq] at h
        obtain ⟨rfl, rfl⟩ := h
        exact hcur
    have hMethodCall : ∀ name s e s', parseMethodCall (n + 1) name s = .ok (e, s') →
        noCmp e = true := by
      intro name s e s' h
      simp only [parseMethodCall, PRes.bind_ok_iff, liftE_ok_iff, Prod.exists] at h
      obtain ⟨s1, h1, h⟩ := h
      split at h
      · simp only [PRes.bind_ok_iff, liftE_ok_iff, Prod.exists] at h
        obtain ⟨s2, h2, h⟩ := h
        split at h
        · simp only [PRes.bind_ok_iff, liftE_ok_iff, Prod.exists] at h
          obtain ⟨s3, h3, hfin⟩ := h
          simp only [PRes.ok.injEq, Prod.mk.injEq] at hfin
          obtain ⟨rfl, rfl⟩ := hfin
          simp [noCmp, noCmpList]
        · simp only [PRes.bind_ok_iff, liftE_ok_iff, Prod.exists] at h
          obtain ⟨as1, s3, h3, s4, h4, hfin⟩ := h
          simp only [PRes.ok.injEq, Prod.mk.injEq] at hfin
          obtain ⟨rfl, rfl⟩ := hfin
          simp [noCmp, ihMethodArgs _ _ _ h3]
      · simp at h
    have hMethodArgs : ∀ s es s', parseMethodArgsLoop (n + 1) s = .ok (es, s') →
        noCmpList es = true := by
      intro s es s' h
      simp only [parseMethodArgsLoop, PRes.bind_ok_iff, Prod.exists] at h
      obtain ⟨e1, s1, h1, h⟩ := h
      split at h
      · simp only [PRes.bind_ok_iff, liftE_ok_iff, Prod.exists] at h
        obtain ⟨s2, h2, es2, s3, h3, hfin⟩ := h
        simp only [PRes.ok.injEq, Prod.mk.injEq] at hfin
        obtain ⟨rfl, rfl⟩ := hfin
        simp [noCmpList, ihExpr _ _ _ h1, ihMethodArgs _ _ _ h3]
      · simp only [PRes.ok.injEq, Prod.mk.injEq] at h
        obtain ⟨rfl, rfl⟩ := h
        simp [noCmpList, ihExpr _ _ _ h1]
    exact ⟨hExpr, hExprLoop, hTerm, hTermLoop, hFactor, hFactorList, hCallExpr,
      hCallArgs, hListIndex, hMethodCall, hMethodArgs⟩


/-- C4: `eat(expected)` succeeds exactly when the current token
structurally equals the expected one — comparing variant and payload, as
the payload-sensitivity conjuncts show — and on success advances the
cursor by exactly one position, changing nothing else; on a mismatch it
reports the expected token and the token found, and past the end of input
it reports the expected token with no found token. -/
theorem c4_eat_spec :
    (∀ (s : PState) (expected : Token),
      (∀ tok, currentToken s = some tok →
        (tokenEq tok expected = true →
          eat expected s = .ok { s with pos := s.pos + 1 })
        ∧ (tokenEq tok expected = false →
          eat expected s = .error (.UnexpectedToken expected (some tok))))
      ∧ (currentToken s = none →
          eat expected s = .error (.UnexpectedToken expected none)))
    ∧ tokenEq (.Identifier "x") (.Identifier "x") = true
    ∧ tokenEq (.Identifier "x") (.Identifier "y") = false
    ∧ tokenEq (.Integer 1) (.Integer 1) = true
    ∧ tokenEq (.Integer 1) (.Integer 2) = false := by
  refine ⟨?_, rfl, rfl, by decide, by decide⟩
  intro s expected
  constructor
  · intro tok hc
    constructor
    · intro heq
      simp [eat, hc, heq]
    · intro hne
      simp [eat, hc, hne]
  · intro hc
    simp [eat, hc]

theorem c4_witness :
    (currentToken (PState.mk [Token.Let, Token.Identifier "x"] 0 [[]]) = some Token.Let
      ∧ tokenEq Token.Let Token.Let = true
      ∧ eat Token.Let (PState.mk [Token.Let, Token.Identifier "x"] 0 [[]]) =
        .ok (PState.mk [Token.Let, Token.Identifier "x"] 1 [[]]))
    ∧ (currentToken (PState.mk [Token.Let] 5 [[]]) = none
      ∧ eat Token.Print (PState.mk [Token.Let] 5 [[]]) =
        .error (.UnexpectedToken Token.Print none)) :=
  ⟨⟨rfl, rfl,
    ((c4_eat_spec.1 (PState.mk [Token.Let, Token.Identifier "x"] 0 [[]])
      Token.Let).1 Token.Let rfl).1 rfl⟩,
    ⟨rfl, (c4_eat_spec.1 (PState.mk [Token.Let] 5 [[]]) Token.Print).2 rfl⟩⟩

/-- C5: a list value checks against a declared `list<T>` exactly when
every element recursively checks against `T`; in particular the empty list
is compatible with `list<int>` (and with `list` of any inner rule, since
`List.all` on `[]` is `true`), and a list holding an integer and a string
is not compatible with `list<int>`. -/
theorem c5_list_type_compatibility :
    (∀ (t : Token) (es : List Token),
      checkTypeCompatibility (.TypeList t) (.List es) =
        es.all (fun e => checkTypeCompatibility t e))
    ∧ checkTypeCompatibility (.TypeList .TypeInt) (.List []) = true
    ∧ checkTypeCompatibility (.TypeList .TypeInt)
        (.List [.Integer 1, .String "a"]) = false := by
  refine ⟨?_, ?_, ?_⟩
  · intro t es
    rw [checkTypeCompatibility, checkTypeList_eq_all]
  · rfl
  · rfl

/-- C2: `assign_variable` searches the scope stack innermost-to-outermost;
when no scope binds the name it returns the undeclared-variable error and
the stack is returned exactly as given; when the innermost binding of the
name (all strictly inner scopes `pre` lack it) holds `existing`, an equal
variant overwrites exactly that binding, and a differing variant returns
the type-mismatch error carrying `existing` and the offending value with
the stack exactly as given. -/
theorem c2_assign_variable_spec :
    ∀ (scopes : List Scope) (name : String) (value : Token),
      (getVariable scopes name = none →
        assignVariable scopes name value = (.error (.UndeclaredVariable name), scopes))
      ∧ (∀ (pre : List Scope) (s : Scope) (post : List Scope) (existing : Token),
          scopes = pre ++ s :: post →
          (∀ sc ∈ pre, scopeGet sc name = none) →
          scopeGet s name = some existing →
          (sameVariant existing value = true →
            assignVariable scopes name value =
              (.ok (), pre ++ scopeInsert s name value :: post))
          ∧ (sameVariant existing value = false →
            assignVariable scopes name value =
              (.error (.TypeMismatch existing value), scopes))) := by
  intro scopes name value
  constructor
  · intro hnone
    induction scopes with
    | nil => rfl
    | cons s rest ih =>
      rw [getVariable] at hnone
      cases hg : scopeGet s name with
      | some v => rw [hg] at hnone; cases hnone
      | none =>
        rw [hg] at hnone
        rw [assignVariable, hg, ih hnone]
  · intro pre s post existing heq hpre hg
    subst heq
    induction pre with
    | nil =>
      constructor
      · intro hsv
        simp [assignVariable, hg, hsv]
      · intro hsv
        simp [assignVariable, hg, hsv]
    | cons sc pre ih =>
      have hsc : scopeGet sc name = none := hpre sc (by simp)
      have ih' := ih (fun x hx => hpre x (by simp [hx]))
      constructor
      · intro hsv
        simp only [List.cons_append]
        simp [assignVariable, hsc, ih'.1 hsv]
      · intro hsv
        simp only [List.cons_append]
        simp [assignVariable, hsc, ih'.2 hsv]

theorem c2_witness :
    assignVariable [[("x", Token.Integer 1)]] "y" (Token.Integer 2) =
      (.error (.UndeclaredVariable "y"), [[("x", Token.Integer 1)]])
    ∧ assignVariable [[("x", Token.Integer 1)]] "x" (Token.String "a") =
      (.error (.TypeMismatch (Token.Integer 1) (Token.String "a")),
        [[("x", Token.Integer 1)]])
    ∧ assignVariable [[("x", Token.Integer 1)]] "x" (Token.Integer 5) =
      (.ok (), [[("x", Token.Integer 5)]]) := by
  refine ⟨?_, ?_, ?_⟩
  · exact (c2_assign_variable_spec _ "y" (Token.Integer 2)).1 rfl
  · exact ((c2_assign_variable_spec _ "x" (Token.String "a")).2
      [] [("x", Token.Integer 1)] [] (Token.Integer 1) rfl (by simp) rfl).2 rfl
  · simpa using ((c2_assign_variable_spec _ "x" (Token.Integer 5)).2
      [] [("x", Token.Integer 1)] [] (Token.Integer 1) rfl (by simp) rfl).1 rfl

/-- C1: for every parenthesis-free arithmetic token sequence over
`+ - * /` and integer literals (encoded as a sum of products), the parser
builds exactly the tree in which each product groups below its additive
node (multiplicative operators bind tighter) and both levels fold to the
left (left associativity), consuming the whole sequence; in particular
`1 + 2 * 3` parses to `Binary(+, 1, Binary(*, 2, 3))`, which is a
different tree from `Binary(*, Binary(+, 1, 2), 3)` — and since
`parseExpr` is a function, the latter is never produced. -/
theorem c1_arith_precedence :
    (∀ (t0 : TermChain) (rest : SumChain) (fuel : Nat) (sc : List Scope),
      2 * (sumToks t0 rest).length + 4 ≤ fuel →
      parseExpr fuel (PState.mk (sumToks t0 rest) 0 sc) =
        .ok (sumTree t0 rest,
          PState.mk (sumToks t0 rest) (sumToks t0 rest).length sc))
    ∧ parseExpr 14 (PState.mk [Token.Integer 1, Token.Plus, Token.Integer 2,
        Token.Multiply, Token.Integer 3] 0 [[]]) =
      .ok (.Binary (.Literal (.Int 1)) .Plus
          (.Binary (.Literal (.Int 2)) .Multiply (.Literal (.Int 3))),
        PState.mk [Token.Integer 1, Token.Plus, Token.Integer 2,
          Token.Multiply, Token.Integer 3] 5 [[]])
    ∧ (Expr.Binary (.Literal (.Int 1)) .Plus
        (.Binary (.Literal (.Int 2)) .Multiply (.Literal (.Int 3))) ≠
      Expr.Binary (.Binary (.Literal (.Int 1)) .Plus (.Literal (.Int 2)))
        .Multiply (.Literal (.Int 3))) := by
  refine ⟨fun t0 rest fuel sc hf => parseExpr_chain t0 rest fuel sc hf, rfl, ?_⟩
  simp

theorem c1_witness :
    parseExpr 14 (PState.mk (sumToks (1, []) [(false, (2, [(false, 3)]))]) 0 [[]]) =
      .ok (sumTree (1, []) [(false, (2, [(false, 3)]))],
        PState.mk (sumToks (1, []) [(false, (2, [(false, 3)]))])
          (sumToks (1, []) [(false, (2, [(false, 3)]))]).length [[]]) :=
  c1_arith_precedence.1 (1, []) [(false, (2, [(false, 3)]))] 14 [[]] (by decide)

/-- C8: one call to `parse_comparison` consumes at most one comparison
operator: its result is either the underlying additive expression
unchanged, or a single comparison node whose two operands are full
additive expressions (results of `parse_expr`, hence free of comparison
nodes by `noCmp_invariant`), with the cursor left exactly after the right
operand; on `a == b == c` the call returns `Binary(==, a, b)` with the
cursor resting on the second `==`. -/
theorem c8_comparison_non_associative :
    (∀ (fuel : Nat) (s : PState) (e : Expr) (s' : PState),
      parseComparison (fuel + 1) s = .ok (e, s') →
      ∃ l s1, parseExpr fuel s = .ok (l, s1) ∧ noCmp l = true ∧
        ((e = l ∧ s' = s1) ∨
          (∃ op r s2, currentToken s1 = some op ∧ cmpOp op = true ∧
            parseExpr fuel { s1 with pos := s1.pos + 1 } = .ok (r, s2) ∧
            noCmp r = true ∧ e = .Binary l op r ∧ s' = s2)))
    ∧ parseComparison 10 (PState.mk [Token.Identifier "a", Token.Equals,
        Token.Identifier "b", Token.Equals, Token.Identifier "c"] 0 [[]]) =
      .ok (.Binary (.Variable "a") .Equals (.Variable "b"),
        PState.mk [Token.Identifier "a", Token.Equals, Token.Identifier "b",
          Token.Equals, Token.Identifier "c"] 3 [[]])
    ∧ currentToken (PState.mk [Token.Identifier "a", Token.Equals,
        Token.Identifier "b", Token.Equals, Token.Identifier "c"] 3 [[]]) =
      some Token.Equals := by
  refine ⟨?_, rfl, rfl⟩
  intro fuel s e s' h
  simp only [parseComparison, PRes.bind_ok_iff, Prod.exists] at h
  obtain ⟨l, s1, h1, h⟩ := h
  refine ⟨l, s1, h1, (noCmp_invariant fuel).1 _ _ _ h1, ?_⟩
  rcases hc : currentToken s1 with _ | tok
  · rw [hc] at h
    simp only [PRes.ok.injEq, Prod.mk.injEq] at h
    obtain ⟨rfl, rfl⟩ := h
    exact Or.inl ⟨rfl, rfl⟩
  · rw [hc] at h
    cases tok <;>
      first
      | (simp only [PRes.ok.injEq, Prod.mk.injEq] at h
         obtain ⟨rfl, rfl⟩ := h
         exact Or.inl ⟨rfl, rfl⟩)
      | (simp only [PRes.bind_ok_iff, Prod.exists] at h
         obtain ⟨r, s2, h2, hfin⟩ := h
         simp only [PRes.ok.injEq, Prod.mk.injEq] at hfin
         obtain ⟨rfl, rfl⟩ := hfin
         exact Or.inr ⟨_, r, s2, rfl, rfl, h2,
           (noCmp_invariant fuel).1 _ _ _ h2, rfl, rfl⟩)

theorem c8_witness :
    ∃ l s1, parseExpr 9 (PState.mk [Token.Identifier "a", Token.Equals,
        Token.Identifier "b", Token.Equals, Token.Identifier "c"] 0 [[]]) =
        .ok (l, s1) ∧ noCmp l = true ∧
      ((Expr.Binary (.Variable "a") .Equals (.Variable "b") = l ∧
          PState.mk [Token.Identifier "a", Token.Equals, Token.Identifier "b",
            Token.Equals, Token.Identifier "c"] 3 [[]] = s1) ∨
        (∃ op r s2, currentToken s1 = some op ∧ cmpOp op = true ∧
          parseExpr 9 { s1 with pos := s1.pos + 1 } = .ok (r, s2) ∧
          noCmp r = true ∧
          Expr.Binary (.Variable "a") .Equals (.Variable "b") = .Binary l op r ∧
          PState.mk [Token.Identifier "a", Token.Equals, Token.Identifier "b",
            Token.Equals, Token.Identifier "c"] 3 [[]] = s2)) :=
  c8_comparison_non_associative.1 9
    (PState.mk [Token.Identifier "a", Token.Equals, Token.Identifier "b",
      Token.Equals, Token.Identifier "c"] 0 [[]])
    (.Binary (.Variable "a") .Equals (.Variable "b"))
    (PState.mk [Token.Identifier "a", Token.Equals, Token.Identifier "b",
      Token.Equals, Token.Identifier "c"] 3 [[]]) rfl

/-- C3 counterexample: `parse_block` pushes no scope — parsing a whole
block (entry to exit) leaves the scope stack exactly `[[("x", 1)]]`, a
single scope — so a variable defined "inside" the block is written to
that same scope: `define_variable` overwrites the outer binding of `x`,
and after the block the lookup yields the inner value `2`, not the
original `1` the claim promises. -/
theorem c3_counterexample :
    parseBlock 20 (PState.mk [Token.Let, Token.Identifier "y", Token.Colon,
        Token.TypeInt, Token.Assign, Token.Integer 5, Token.EndOfCondition] 0
        [[("x", Token.Integer 1)]]) =
      .ok ([Stmt.Let "y" Token.TypeInt (Expr.Literal (LiteralValue.Int 5))],
        PState.mk [Token.Let, Token.Identifier "y", Token.Colon, Token.TypeInt,
          Token.Assign, Token.Integer 5, Token.EndOfCondition] 6
          [[("x", Token.Integer 1)]])
    ∧ defineVariable [[("x", Token.Integer 1)]] "x" (Token.Integer 2) =
      [[("x", Token.Integer 2)]]
    ∧ getVariable [[("x", Token.Integer 2)]] "x" = some (Token.Integer 2)
    ∧ getVariable [[("x", Token.Integer 2)]] "x" ≠ some (Token.Integer 1) := by
  refine ⟨rfl, rfl, rfl, ?_⟩
  simp only [getVariable, scopeGet, ne_eq, Option.some.injEq, reduceIte]
  intro hc
  cases hc

/-- C3 (amended): the scope stack is never empty in any reachable parser
state — construction yields exactly one (global) scope, `define_variable`
and `assign_variable` preserve the stack's length, and the parsing
routines (`parse_block`, `parse_statement`) never modify the stack at all
(`scopes_invariant`); lookup takes the innermost matching binding.  But no
scope is ever pushed on block entry or popped on block exit, so defining a
variable inside a block writes to the same innermost scope and overwrites
an outer binding of the same name instead of shadowing it. -/
theorem c3_scope_stack :
    (∀ toks : List Token, (ParserNew toks).scopes = [[]] ∧
      (ParserNew toks).scopes.length = 1)
    ∧ (∀ (scopes : List Scope) (n : String) (v : Token),
        (defineVariable scopes n v).length = scopes.length)
    ∧ (∀ (scopes : List Scope) (n : String) (v : Token),
        scopes ≠ [] → defineVariable scopes n v ≠ [])
    ∧ (∀ (scopes : List Scope) (n : String) (v : Token),
        (assignVariable scopes n v).2.length = scopes.length)
    ∧ (∀ (sc : Scope) (rest : List Scope) (n : String) (v : Token),
        scopeGet sc n = some v → getVariable (sc :: rest) n = some v)
    ∧ (∀ (fuel : Nat) (s : PState) (sts : List Stmt) (s' : PState),
        parseBlock fuel s = .ok (sts, s') → s'.scopes = s.scopes)
    ∧ (∀ (fuel : Nat) (s : PState) (st : Stmt) (s' : PState),
        parseStatement fuel s = .ok (st, s') → s'.scopes = s.scopes) := by
  refine ⟨fun toks => ⟨rfl, rfl⟩, ?_, ?_, ?_, ?_, ?_, ?_⟩
  · intro scopes n v
    cases scopes <;> simp [defineVariable]
  · intro scopes n v hne
    cases scopes with
    | nil => exact absurd rfl hne
    | cons s rest => simp [defineVariable]
  · intro scopes n v
    induction scopes with
    | nil => rfl
    | cons s rest ih =>
      simp only [assignVariable]
      cases hg : scopeGet s n with
      | some ex =>
        split <;> (try split) <;> simp_all
      | none =>
        simp [ih]
  · intro sc rest n v hg
    simp [getVariable, hg]
  · intro fuel s sts s' h
    obtain ⟨-, -, -, -, -, -, -, -, -, -, -, -, -, -, -, -, -, -, -, -, -, -,
      hB, -, -, -, -, -⟩ := scopes_invariant fuel
    exact hB s sts s' h
  · intro fuel s st s' h
    obtain ⟨-, -, -, -, -, -, -, -, -, -, -, -, -, -, -, -, -, -, -, -, -, -,
      -, -, -, -, -, hS⟩ := scopes_invariant fuel
    exact hS s st s' h

theorem c3_witness :
    defineVariable [[("a", Token.Integer 7)]] "b" (Token.Boolean true) ≠ []
    ∧ getVariable [[("x", Token.Integer 3)], [("x", Token.Integer 9)]] "x" =
      some (Token.Integer 3)
    ∧ (PState.mk [Token.Let, Token.Identifier "y", Token.Colon, Token.TypeInt,
        Token.Assign, Token.Integer 5, Token.EndOfCondition] 6
        [[("x", Token.Integer 1)]]).scopes =
      (PState.mk [Token.Let, Token.Identifier "y", Token.Colon, Token.TypeInt,
        Token.Assign, Token.Integer 5, Token.EndOfCondition] 0
        [[("x", Token.Integer 1)]]).scopes :=
  ⟨c3_scope_stack.2.2.1 [[("a", Token.Integer 7)]] "b" (Token.Boolean true)
      (by simp),
    c3_scope_stack.2.2.2.2.1 [("x", Token.Integer 3)] [[("x", Token.Integer 9)]]
      "x" (Token.Integer 3) rfl,
    c3_scope_stack.2.2.2.2.2.1 20
      (PState.mk [Token.Let, Token.Identifier "y", Token.Colon, Token.TypeInt,
        Token.Assign, Token.Integer 5, Token.EndOfCondition] 0
        [[("x", Token.Integer 1)]])
      [Stmt.Let "y" Token.TypeInt (Expr.Literal (LiteralValue.Int 5))]
      (PState.mk [Token.Let, Token.Identifier "y", Token.Colon, Token.TypeInt,
        Token.Assign, Token.Integer 5, Token.EndOfCondition] 6
        [[("x", Token.Integer 1)]]) rfl⟩


end Parse

end Wolf
